import Mathlib

/-!
Verification of the rule-matching and fix-application engine of the
Code-Migration-CLI tool (RuleEngine, Fixer, ErrorHandler).

File content is modelled as `List Char`.  The JavaScript regular expressions
that the claims exercise use only literal characters, the word boundary `\b`
and the one-or-more quantifier over the character classes `\w` and `\s`, so
regex patterns are embedded as token lists over exactly those constructs,
with a backtracking matcher reproducing the JS semantics (greedy `+`,
non-overlapping global search advancing `lastIndex`, zero-width matches
advancing the cursor by one).  A pattern source string that does not compile
(`new RegExp` throws) is represented by the `RPat.bad` constructor.

The filesystem, the backup registry (`Map`), the backup directory contents
and the fixed-file set (`Set`) of the `Fixer` are modelled as explicit
association lists inside `FixerState`; `new Date().toISOString()` timestamps
are modelled by a strictly increasing session clock rendered injectively
into the backup file name.
-/

set_option autoImplicit false

deriving instance DecidableEq for Except

namespace CodeMigration

/-- JS `\w`: `[A-Za-z0-9_]`. -/
def isWordChar (c : Char) : Bool :=
  ('a' ≤ c && c ≤ 'z') || ('A' ≤ c && c ≤ 'Z') || ('0' ≤ c && c ≤ '9') || c = '_'

/-- JS `\s` restricted to the ASCII whitespace appearing in the sources. -/
def isSpaceChar (c : Char) : Bool :=
  c = ' ' || c = '\t' || c = '\n' || c = '\r'

/-- The character classes used by the rule patterns under scrutiny. -/
inductive CharCls
  | wordC
  | spaceC
deriving DecidableEq, Repr

def charInCls : CharCls → Char → Bool
  | .wordC, c => isWordChar c
  | .spaceC, c => isSpaceChar c

/-- One token of a compiled JS regex: a literal character, a single
character-class atom, the zero-width word boundary `\b`, or a greedy
one-or-more quantifier over a character class. -/
inductive RTok
  | lit (c : Char)
  | cls (k : CharCls)
  | wordB
  | plusCls (k : CharCls)
deriving DecidableEq, Repr

/-- JS word-boundary test at offset `i` of the subject. -/
def wordBoundaryAt (cs : List Char) (i : Nat) : Bool :=
  let prevW := decide (0 < i) && ((cs.get? (i - 1)).any isWordChar)
  let curW := (cs.get? i).any isWordChar
  prevW != curW

def countWhile (f : Char → Bool) : List Char → Nat
  | [] => 0
  | c :: rest => if f c then countWhile f rest + 1 else 0

/-- Length of the maximal run of characters satisfying `f` starting at `i`. -/
def runLen (f : Char → Bool) (cs : List Char) (i : Nat) : Nat :=
  countWhile f (cs.drop i)

/-- The end offsets a token can reach from offset `i`, in the order a
backtracking JS engine tries them (greedy: longest first). -/
def tokCandidates (t : RTok) (cs : List Char) (i : Nat) : List Nat :=
  match t with
  | .lit c => if cs.get? i = some c then [i + 1] else []
  | .cls k => if (cs.get? i).any (charInCls k) then [i + 1] else []
  | .wordB => if wordBoundaryAt cs i then [i] else []
  | .plusCls k =>
      let r := runLen (charInCls k) cs i
      (List.range r).map (fun j => i + r - j)

/-- Backtracking match of a token sequence anchored at offset `i`; returns
the end offset of the first (leftmost-greedy) successful parse. -/
def matchSeq : List RTok → List Char → Nat → Option Nat
  | [], _, i => some i
  | t :: ts, cs, i => (tokCandidates t cs i).findSome? (fun j => matchSeq ts cs j)

/-- Scan forward from offset `i` for the first offset at which the pattern
matches, as `RegExp.exec` does for a non-anchored pattern.  `fuel` bounds
the scan; `cs.length + 1 - i` positions always suffice. -/
def findMatchFrom (toks : List RTok) (cs : List Char) : Nat → Nat → Option (Nat × Nat)
  | 0, _ => none
  | fuel + 1, i =>
      if i > cs.length then none
      else
        match matchSeq toks cs i with
        | some e => some (i, e)
        | none => findMatchFrom toks cs fuel (i + 1)

/-- The `while ((match = compiledPattern.exec(content)) !== null)` loop:
enumerate the non-overlapping global matches as (start, end) offset pairs.
After each match `lastIndex` becomes the match end, bumped by one on a
zero-width match (the source's `compiledPattern.lastIndex++`). -/
def execAllAux (toks : List RTok) (cs : List Char) : Nat → Nat → List (Nat × Nat)
  | 0, _ => []
  | fuel + 1, li =>
      if li > cs.length then []
      else
        match findMatchFrom toks cs (cs.length + 1 - li) li with
        | none => []
        | some (s, e) => (s, e) :: execAllAux toks cs fuel (if e = s then e + 1 else e)

def execAll (toks : List RTok) (cs : List Char) : List (Nat × Nat) :=
  execAllAux toks cs (cs.length + 2) 0

/-- Splice a replacement over each listed match, keeping the gaps:
the semantics of `String.prototype.replace` with a global regex and a
plain replacement string. -/
def spliceMatches (cs repl : List Char) : List (Nat × Nat) → Nat → List Char
  | [], pos => cs.drop pos
  | (s, e) :: ms, pos => (cs.drop pos).take (s - pos) ++ repl ++ spliceMatches cs repl ms e

/-- `content.replace(new RegExp(pattern, 'g'), replacement)` for a plain
(non-`$`-referencing) replacement string. -/
def globalReplace (toks : List RTok) (repl : List Char) (cs : List Char) : List Char :=
  spliceMatches cs repl (execAll toks cs) 0

/-- Does `needle` occur in `hay` starting at offset `i`? -/
def isSubAt (needle hay : List Char) (i : Nat) : Bool :=
  needle.isPrefixOf (hay.drop i)

/-- JS `String.prototype.indexOf` for a substring. -/
def indexOfSub (needle hay : List Char) : Option Nat :=
  if needle.isPrefixOf hay then some 0
  else
    match hay with
    | [] => none
    | _ :: rest => (indexOfSub needle rest).map (· + 1)

/-- `content.replace(stringPattern, replacement)`: with a plain string as the
first argument JS replaces only the first occurrence. -/
def replaceFirst (needle repl hay : List Char) : List Char :=
  match indexOfSub needle hay with
  | none => hay
  | some i => hay.take i ++ repl ++ hay.drop (i + needle.length)

example : execAll [.wordB, .lit 'v', .lit 'a', .lit 'r', .wordB]
    "var x = 1;\nvar y = 2;".data = [(0, 3), (11, 14)] := by decide

example : globalReplace [.wordB, .lit 'v', .lit 'a', .lit 'r', .wordB]
    "const".data "var x = 1;\nvar y = 2;".data = "const x = 1;\nconst y = 2;".data := by
  decide

example : replaceFirst "var".data "const".data "var x; var y;".data
    = "const x; var y;".data := by decide

/-! ## Data model -/

inductive Severity
  | error
  | warning
  | info
deriving DecidableEq, Repr

/-- A rule's `pattern` source string as the engine sees it: either
`new RegExp(pattern)` succeeds, compiling to a token list, or it throws. -/
inductive RPat
  | ok (toks : List RTok)
  | bad
deriving DecidableEq, Repr

/-- A rule that passed `RuleEngine.validateRule`. -/
structure Rule where
  id : String
  name : String
  description : String
  pattern : RPat
  fileTypes : List String
  severity : Severity
  replacement : Option (List Char)
deriving DecidableEq, Repr

/-- The finding object built in `RuleEngine.applyRuleWithTimeout`.  The
`pattern` field is `Option` because `Fixer.applyPatternReplacement` also
accepts findings whose `pattern` is absent (falsy). -/
structure Finding where
  ruleId : String
  ruleName : String
  description : String
  filePath : String
  lineNumber : Nat
  columnNumber : Nat
  matchedText : List Char
  severity : Severity
  fixable : Bool
  replacement : Option (List Char)
  pattern : Option RPat
deriving DecidableEq, Repr

/-- First-match lookup in an association list (JS `Map.get` /
object-key lookup). -/
def lookupA {β : Type} : List (String × β) → String → Option β
  | [], _ => none
  | (k', v) :: rest, k => if k' = k then some v else lookupA rest k

/-- JS `Map.set`: overwrite the existing binding (JS `Map` keys are unique,
so the first binding is the only one) or append a new one. -/
def setA {β : Type} : List (String × β) → String → β → List (String × β)
  | [], k, v => [(k, v)]
  | (k', v') :: rest, k, v =>
      if k' = k then (k, v) :: rest else (k', v') :: setA rest k v

/-! ## RuleEngine: position tracking -/

/-- JS `beforeMatch.split('\n')` (splitting on a one-character separator). -/
def splitNl : List Char → List (List Char)
  | [] => [[]]
  | c :: rest =>
      if c = '\n' then [] :: splitNl rest
      else
        match splitNl rest with
        | [] => [[c]]
        | p :: ps => (c :: p) :: ps

/-- JS `String.prototype.lastIndexOf` for one character: the last offset
holding `c`, or `-1`. -/
def jsLastIndexOf (c : Char) : List Char → Int
  | [] => -1
  | x :: rest =>
      let r := jsLastIndexOf c rest
      if r ≥ 0 then r + 1 else if x = c then 0 else -1

/-- `const lineNumber = beforeMatch.split('\n').length;` -/
def lineNumberOf (before : List Char) : Nat :=
  (splitNl before).length

/-- `const columnNumber = beforeMatch.length - beforeMatch.lastIndexOf('\n');` -/
def columnNumberOf (before : List Char) : Nat :=
  ((before.length : Int) - jsLastIndexOf '\n' before).toNat

/-- The finding record pushed for one regex match `(s, e)` in
`RuleEngine.applyRuleWithTimeout`. -/
def mkFinding (rule : Rule) (filePath : String) (cs : List Char) (m : Nat × Nat) : Finding :=
  let before := cs.take m.1
  { ruleId := rule.id
    ruleName := rule.name
    description := rule.description
    filePath := filePath
    lineNumber := lineNumberOf before
    columnNumber := columnNumberOf before
    matchedText := (cs.drop m.1).take (m.2 - m.1)
    severity := rule.severity
    fixable := rule.replacement.isSome
    replacement := rule.replacement
    pattern := some rule.pattern }

/-! ## RuleEngine: scanning -/

def tooManyMatchesMsg : String :=
  "Too many regex matches (10000+) - possible infinite loop"

/-- `RuleEngine.applyRuleWithTimeout`: enumerate the global matches and build
a finding per match; abort with the runaway-pattern error as soon as the
iteration counter exceeds `maxIterations = 10000` (observably: the total
number of matches exceeds 10000, in which case every finding collected so
far is discarded).  The `withTimeout` wrapper is advisory only — the match
loop runs synchronously inside the promise executor — so wall-clock
timeouts are not modelled. -/
def applyRuleWithTimeout (toks : List RTok) (content : List Char) (rule : Rule)
    (filePath : String) : Except String (List Finding) :=
  let ms := execAll toks content
  if ms.length > 10000 then .error tooManyMatchesMsg
  else .ok (ms.map (mkFinding rule filePath content))

structure RuleEngineState where
  rules : List Rule
  compiledRules : List (String × List RTok)
deriving DecidableEq, Repr

/-- One iteration of the `for (const rule of this.rules)` loop in
`RuleEngine.applyRules`: skip rules not matching the file type or lacking a
compiled pattern; on a scan error, record it (the source reports it through
the error handler) and continue. -/
def applyRulesStep (compiled : List (String × List RTok)) (content : List Char)
    (filePath fileExtension : String) (acc : List Finding × List (String × String))
    (rule : Rule) : List Finding × List (String × String) :=
  if !(rule.fileTypes.contains fileExtension) then acc
  else
    match lookupA compiled rule.id with
    | none => acc
    | some toks =>
        match applyRuleWithTimeout toks content rule filePath with
        | .ok fs => (acc.1 ++ fs, acc.2)
        | .error msg => (acc.1, acc.2 ++ [(rule.id, msg)])

/-- `RuleEngine.applyRules`: run every rule applicable to the file extension
whose compiled pattern exists; a rule whose scan fails contributes an error
record and processing continues with the next rule. -/
def applyRules (eng : RuleEngineState) (content : List Char) (filePath : String)
    (fileExtension : String) : List Finding × List (String × String) :=
  eng.rules.foldl (applyRulesStep eng.compiledRules content filePath fileExtension) ([], [])

/-! ## RuleEngine: rule loading and validation -/

/-- A raw rule field as `validateRule` can observe it: absent (or falsy, which
fails the required-field presence check), present but of the wrong
type / outside the allowed enum, or valid. -/
inductive FieldV (α : Type)
  | missing
  | invalid
  | ok (val : α)
deriving DecidableEq, Repr

def FieldV.present {α : Type} : FieldV α → Bool
  | .missing => false
  | _ => true

/-- The `replacement` field: `null`, a string, or anything else (including
absent/`undefined`, which fails the null-or-string check). -/
inductive ReplV
  | nullV
  | strV (s : List Char)
  | badV
deriving DecidableEq, Repr

/-- A rule object as read from the rules JSON, before validation. -/
structure RawRule where
  id : FieldV String
  name : FieldV String
  description : Option String
  pattern : FieldV RPat
  fileTypes : FieldV (List String)
  severity : FieldV Severity
  replacement : ReplV
deriving DecidableEq, Repr

def checkPresent {α : Type} (f : FieldV α) (fieldName : String) : Except String Unit :=
  if f.present then .ok ()
  else .error ("Rule validation failed: missing required field \"" ++ fieldName ++ "\"")

def checkTyped {α : Type} (f : FieldV α) (msg : String) : Except String α :=
  match f with
  | .ok v => .ok v
  | _ => .error msg

/-- `RuleEngine.validateRule`: the required-field presence loop followed by
the per-field type checks, throwing (returning `.error`) at the first
failure, in source order. -/
def validateRule (r : RawRule) : Except String Rule := do
  checkPresent r.id "id"
  checkPresent r.name "name"
  (if r.description.isSome then Except.ok ()
   else Except.error "Rule validation failed: missing required field \"description\"")
  checkPresent r.pattern "pattern"
  checkPresent r.fileTypes "fileTypes"
  checkPresent r.severity "severity"
  let i ← checkTyped r.id "Rule validation failed: \"id\" must be a string"
  let n ← checkTyped r.name "Rule validation failed: \"name\" must be a string"
  let p ← checkTyped r.pattern "Rule validation failed: \"pattern\" must be a string"
  let ft ← checkTyped r.fileTypes "Rule validation failed: \"fileTypes\" must be an array"
  let sv ← checkTyped r.severity
    "Rule validation failed: \"severity\" must be one of: error, warning, info"
  let repl ←
    match r.replacement with
    | .nullV => Except.ok none
    | .strV s => Except.ok (some s)
    | .badV => Except.error "Rule validation failed: \"replacement\" must be a string or null"
  Except.ok
    { id := i
      name := n
      description := r.description.getD ""
      pattern := p
      fileTypes := ft
      severity := sv
      replacement := repl }

def invalidRegexMsg : String := "invalid regex pattern"

/-- The outcome of `RuleEngine.loadRules`: the `this.rules` list, the
`this.compiledRules` map, and the non-fatal invalid-regex reports handed to
the error handler. -/
structure LoadedRules where
  rules : List Rule
  compiledRules : List (String × List RTok)
  regexErrors : List (String × String)
deriving DecidableEq, Repr

/-- The rules document: either the top-level `rules` key is missing or not an
array, or it is a list of raw rule objects. -/
inductive RulesConfig
  | malformed
  | withRules (rules : List RawRule)

/-- The per-rule loop of `RuleEngine.loadRules`: `validateRule` throws
fatally; the rule is then pushed onto `this.rules` and its pattern compiled —
a compile failure is non-fatal (skipping only the `compiledRules` entry) when
an error handler is present, and fatal otherwise. -/
def loadRulesAux (hasErrorHandler : Bool) :
    List RawRule → LoadedRules → Except String LoadedRules
  | [], acc => .ok acc
  | r :: rest, acc =>
      match validateRule r with
      | .error e => .error e
      | .ok vr =>
          match vr.pattern with
          | .ok toks =>
              loadRulesAux hasErrorHandler rest
                { acc with
                  rules := acc.rules ++ [vr]
                  compiledRules := setA acc.compiledRules vr.id toks }
          | .bad =>
              if hasErrorHandler then
                loadRulesAux hasErrorHandler rest
                  { acc with
                    rules := acc.rules ++ [vr]
                    regexErrors := acc.regexErrors ++ [(vr.id, invalidRegexMsg)] }
              else .error ("Invalid regex pattern in rule \"" ++ vr.id ++ "\"")

/-- `RuleEngine.loadRules` after the rules file has been read and parsed. -/
def loadRules (hasErrorHandler : Bool) : RulesConfig → Except String LoadedRules
  | .malformed => .error "Invalid rules file: missing or invalid \"rules\" array"
  | .withRules rs => loadRulesAux hasErrorHandler rs ⟨[], [], []⟩

/-! ## Fixer -/

/-- One file of the modelled filesystem: normally writable, write-protected
(reads succeed, writes and copies onto it raise `EACCES`), or unreadable
(`fs.access(path, R_OK)` and reads raise). -/
inductive FileV
  | writable (content : List Char)
  | readonly (content : List Char)
  | unreadable
deriving DecidableEq, Repr

def FileV.readContent : FileV → Option (List Char)
  | .writable c => some c
  | .readonly c => some c
  | .unreadable => none

structure FixerOptions where
  backupDir : String := ".code-migration-backups"
  createTimestampedBackups : Bool := true
  dryRun : Bool := false
deriving DecidableEq, Repr

/-- The mutable state of one `Fixer` session plus the filesystem it acts on.
`clock` stands for the wall clock: each `new Date()` observation yields the
next tick, and ticks render injectively into timestamp strings. -/
structure FixerState where
  fs : List (String × FileV)
  backupRegistry : List (String × String)
  backupFiles : List (String × List Char)
  fixedFiles : List String
  clock : Nat
deriving DecidableEq, Repr

/-- The timestamp string observed at tick `n` (injective rendering of the
ISO timestamp). -/
def timeStr (n : Nat) : String :=
  String.mk (List.replicate n 'T')

/-- The backup file name generated in `Fixer.createBackup` (file paths are
modelled as plain base names, so `path.basename` is the identity). -/
def backupNameFor (opts : FixerOptions) (filePath : String) (tick : Nat) : String :=
  if opts.createTimestampedBackups then filePath ++ "." ++ timeStr tick ++ ".backup"
  else filePath ++ ".backup"

/-- `Fixer.createBackup`: check readability, build the (possibly
timestamped) backup name, copy with `overwrite: false` (a copy onto an
existing backup name is silently skipped), and register the backup path for
rollback — overwriting any registry entry a previous call made. -/
def createBackup (opts : FixerOptions) (st : FixerState) (filePath : String) :
    FixerState × Except String String :=
  match (lookupA st.fs filePath).bind FileV.readContent with
  | none => (st, .error ("Failed to create backup for " ++ filePath))
  | some content =>
      let backupPath := opts.backupDir ++ "/" ++ backupNameFor opts filePath st.clock
      let backupFiles' :=
        if (lookupA st.backupFiles backupPath).isSome then st.backupFiles
        else st.backupFiles ++ [(backupPath, content)]
      ({ st with
          clock := st.clock + 1
          backupFiles := backupFiles'
          backupRegistry := setA st.backupRegistry filePath backupPath },
        .ok backupPath)

/-- `Fixer.applyPatternReplacement`: global regex replacement when the
finding carries a (compilable) pattern; plain first-occurrence string
replacement when the pattern is absent or `new RegExp` throws.  JS coerces a
non-string replacement with `String(...)`, so a `null` replacement would be
spliced in as the text `null`. -/
def applyPatternReplacement (content : List Char) (finding : Finding) : List Char :=
  let repl := finding.replacement.getD "null".data
  match finding.pattern with
  | some (.ok toks) => globalReplace toks repl content
  | some .bad => replaceFirst finding.matchedText repl content
  | none => replaceFirst finding.matchedText repl content

/-- The sort key order of `fixFile`'s comparator: descending line number,
then descending column number. -/
def keyGe (a b : Finding) : Bool :=
  decide (b.lineNumber < a.lineNumber) ||
    (decide (a.lineNumber = b.lineNumber) && decide (b.columnNumber ≤ a.columnNumber))

/-- Insert `f` after every already-placed finding whose key is ≥ its own:
the stable descending sort performed by `findings.sort((a, b) => ...)`. -/
def insertByPos (f : Finding) : List Finding → List Finding
  | [] => [f]
  | g :: gs => if keyGe g f then g :: insertByPos f gs else f :: g :: gs

def sortFindings (l : List Finding) : List Finding :=
  l.foldl (fun acc f => insertByPos f acc) []

/-- One iteration of `fixFile`'s fix loop: apply the finding's replacement to
the current content and count the finding iff the content changed. -/
def fixStep (acc : List Char × Nat) (finding : Finding) : List Char × Nat :=
  let modified := applyPatternReplacement acc.1 finding
  (modified, if modified ≠ acc.1 then acc.2 + 1 else acc.2)

/-- The pure core of `Fixer.fixFile`: sort the file's findings by position
(descending) and fold the per-finding replacement over the content. -/
def fixFilePure (content : List Char) (findings : List Finding) : List Char × Nat :=
  (sortFindings findings).foldl fixStep (content, 0)

/-- `Fixer.fixFile`: read the file, run the fix loop, and (outside dry run)
write the modified content back iff it changed, preserving the permission
bits (`chmod` restores the original mode, so the `FileV` constructor is
kept). -/
def fixFile (opts : FixerOptions) (st : FixerState) (filePath : String)
    (findings : List Finding) : FixerState × Except String Nat :=
  match (lookupA st.fs filePath).bind FileV.readContent with
  | none => (st, .error ("Failed to fix file " ++ filePath))
  | some original =>
      let r := fixFilePure original findings
      if !opts.dryRun && r.1 ≠ original then
        match lookupA st.fs filePath with
        | some (.writable _) =>
            ({ st with fs := setA st.fs filePath (.writable r.1) }, .ok r.2)
        | _ => (st, .error ("Failed to fix file " ++ filePath))
      else (st, .ok r.2)

/-- `Fixer.groupFindingsByFile`: group by `filePath`, file order following
first occurrence and findings kept in encounter order (JS object keys). -/
def addToGroups (gs : List (String × List Finding)) (f : Finding) :
    List (String × List Finding) :=
  match gs with
  | [] => [(f.filePath, [f])]
  | (p, l) :: rest =>
      if p = f.filePath then (p, l ++ [f]) :: rest else (p, l) :: addToGroups rest f

def groupFindingsByFile (findings : List Finding) : List (String × List Finding) :=
  findings.foldl addToGroups []

/-- The `results` object accumulated by `Fixer.applyFixes`. -/
structure FixResults where
  filesProcessed : Nat := 0
  filesFixed : Nat := 0
  patternsReplaced : Nat := 0
  errors : List (String × String) := []
  backupsCreated : List String := []
  fixedFiles : List String := []
deriving DecidableEq, Repr

/-- The options destructured by `applyFixes` (`confirmBeforeFix` is
destructured by the source but never used on this code path). -/
structure ApplyOptions where
  backupBeforeFix : Bool := true
  continueOnError : Bool := true
deriving DecidableEq, Repr

def setAdd (l : List String) (x : String) : List String :=
  if l.contains x then l else l ++ [x]

/-- The body of `applyFixes`'s per-file `try`/`catch`: bump `filesProcessed`,
back the file up (unless dry run or disabled), fix it, and record either the
per-file tallies or the caught error.  The third component signals the
caught error, `none` meaning the file completed. -/
def processOneFile (fopts : FixerOptions) (aopts : ApplyOptions) (st : FixerState)
    (acc : FixResults) (filePath : String) (findings : List Finding) :
    FixerState × FixResults × Option String :=
  let acc := { acc with filesProcessed := acc.filesProcessed + 1 }
  if aopts.backupBeforeFix && !fopts.dryRun then
    match createBackup fopts st filePath with
    | (st', .error e) =>
        (st', { acc with errors := acc.errors ++ [(filePath, e)] }, some e)
    | (st', .ok bp) =>
        let acc := { acc with backupsCreated := acc.backupsCreated ++ [bp] }
        match fixFile fopts st' filePath findings with
        | (st'', .error e) =>
            (st'', { acc with errors := acc.errors ++ [(filePath, e)] }, some e)
        | (st'', .ok n) =>
            if 0 < n then
              ({ st'' with fixedFiles := setAdd st''.fixedFiles filePath },
                { acc with
                  filesFixed := acc.filesFixed + 1
                  patternsReplaced := acc.patternsReplaced + n
                  fixedFiles := acc.fixedFiles ++ [filePath] },
                none)
            else (st'', acc, none)
  else
    match fixFile fopts st filePath findings with
    | (st'', .error e) =>
        (st'', { acc with errors := acc.errors ++ [(filePath, e)] }, some e)
    | (st'', .ok n) =>
        if 0 < n then
          ({ st'' with fixedFiles := setAdd st''.fixedFiles filePath },
            { acc with
              filesFixed := acc.filesFixed + 1
              patternsReplaced := acc.patternsReplaced + n
              fixedFiles := acc.fixedFiles ++ [filePath] },
            none)
        else (st'', acc, none)

/-- The `for (const [filePath, fileFindings] of ...)` loop of `applyFixes`:
on a per-file error, continue with the remaining files when
`continueOnError` is true, otherwise rethrow (carrying the partial results,
which the outer catch consults for `backupsCreated`). -/
def processFiles (fopts : FixerOptions) (aopts : ApplyOptions) :
    FixerState → FixResults → List (String × List Finding) →
      FixerState × Except (String × FixResults) FixResults
  | st, acc, [] => (st, .ok acc)
  | st, acc, (p, fl) :: rest =>
      match processOneFile fopts aopts st acc p fl with
      | (st', acc', none) => processFiles fopts aopts st' acc' rest
      | (st', acc', some e) =>
          if aopts.continueOnError then processFiles fopts aopts st' acc' rest
          else (st', .error ("Fix operation failed for " ++ p ++ ": " ++ e, acc'))

/-- One restore step of `Fixer.restoreFromBackup`: copy the registered
backup artifact back over the original (`overwrite: true`); a missing
registry entry, a missing artifact, or a copy failure yields one error entry
instead of aborting the batch. -/
def restoreOne (st : FixerState) (filePath : String) :
    FixerState × Bool × Option String :=
  match lookupA st.backupRegistry filePath with
  | none => (st, false, some ("No backup found for " ++ filePath))
  | some bp =>
      match lookupA st.backupFiles bp with
      | none => (st, false, some ("Backup file not found: " ++ bp))
      | some content =>
          match lookupA st.fs filePath with
          | some (.readonly _) => (st, false, some ("Failed to restore " ++ filePath))
          | some .unreadable => (st, false, some ("Failed to restore " ++ filePath))
          | _ =>
              ({ st with
                  fs := setA st.fs filePath (.writable content)
                  fixedFiles := st.fixedFiles.filter (fun q => q ≠ filePath) },
                true, none)

/-- `Fixer.restoreFromBackup` over a list of paths: run `restoreOne` on each
path in order, tallying restored files and error entries. -/
def restoreFromBackup (st : FixerState) : List String → FixerState × Nat × List (String × String)
  | [] => (st, 0, [])
  | p :: ps =>
      match restoreOne st p with
      | (st', true, _) =>
          let r := restoreFromBackup st' ps
          (r.1, r.2.1 + 1, r.2.2)
      | (st', false, some e) =>
          let r := restoreFromBackup st' ps
          (r.1, r.2.1, (p, e) :: r.2.2)
      | (st', false, none) => restoreFromBackup st' ps

/-- `Fixer.rollbackChanges`: restore every path in the session registry,
then clear the registry and the fixed-file set. -/
def rollbackChanges (st : FixerState) : FixerState × Nat × List (String × String) :=
  let r := restoreFromBackup st (st.backupRegistry.map (·.1))
  ({ r.1 with backupRegistry := [], fixedFiles := [] }, r.2)

/-- `Fixer.applyFixes`: filter to fixable findings, group by file, run the
per-file loop, and on a thrown error roll back if any backup was created in
this call before propagating the error. -/
def applyFixes (fopts : FixerOptions) (aopts : ApplyOptions) (st : FixerState)
    (findings : List Finding) : FixerState × Except String FixResults :=
  let fixableFindings := findings.filter (fun f => f.fixable && f.replacement.isSome)
  if fixableFindings.isEmpty then (st, .ok {})
  else
    match processFiles fopts aopts st {} (groupFindingsByFile fixableFindings) with
    | (st', .ok res) => (st', .ok res)
    | (st', .error (e, accRes)) =>
        if accRes.backupsCreated.isEmpty then (st', .error e)
        else ((rollbackChanges st').1, .error e)

/-! ## ErrorHandler: permission-error suppression -/

structure ErrorCounts where
  permission : Nat := 0
  fileSize : Nat := 0
  encoding : Nat := 0
  timeout : Nat := 0
  memory : Nat := 0
  regex : Nat := 0
  filesystem : Nat := 0
  unknown : Nat := 0
deriving DecidableEq, Repr

/-- What one `handlePermissionError` call prints: an individual warning, the
one-time "further errors suppressed" notice, or nothing. -/
inductive PermReport
  | individual (msg : String)
  | suppressNotice
  | silent
deriving DecidableEq, Repr

/-- `ErrorHandler.handlePermissionError`: always increment the permission
counter; report the first three occurrences individually, emit the
suppression notice exactly on the fourth, and stay silent afterwards. -/
def handlePermissionError (counts : ErrorCounts) (filePath : String) :
    ErrorCounts × PermReport :=
  let counts' := { counts with permission := counts.permission + 1 }
  let report :=
    if counts'.permission ≤ 3 then
      PermReport.individual ("Permission denied: " ++ filePath ++
        " - Check file permissions and ensure read access")
    else if counts'.permission = 4 then PermReport.suppressNotice
    else PermReport.silent
  (counts', report)

/-- A run of permission-error classifications within one handler session. -/
def permRun (counts : ErrorCounts) : List String → ErrorCounts × List PermReport
  | [] => (counts, [])
  | p :: ps =>
      let r := handlePermissionError counts p
      let rest := permRun r.1 ps
      (rest.1, r.2 :: rest.2)

def permSession (paths : List String) : ErrorCounts × List PermReport :=
  permRun {} paths

/-! ## Association-list lemmas -/

theorem lookupA_setA_eq {β : Type} (l : List (String × β)) (k : String) (v : β) :
    lookupA (setA l k v) k = some v := by
  induction l with
  | nil => simp [setA, lookupA]
  | cons hd tl ih =>
      obtain ⟨k', v'⟩ := hd
      by_cases h : k' = k
      · simp [setA, h, lookupA]
      · simp [setA, h, lookupA, ih]

theorem lookupA_setA_ne {β : Type} (l : List (String × β)) (k : String) (v : β)
    (k' : String) (h : k' ≠ k) : lookupA (setA l k v) k' = lookupA l k' := by
  induction l with
  | nil =>
      simp only [setA, lookupA]
      rw [if_neg (fun hk => h hk.symm)]
  | cons hd tl ih =>
      obtain ⟨k0, v0⟩ := hd
      by_cases hk : k0 = k
      · subst hk
        simp only [setA, if_pos rfl, lookupA]
        rw [if_neg (fun hkk => h hkk.symm), if_neg (fun hkk => h hkk.symm)]
      · simp only [setA, hk, if_false, lookupA]
        by_cases hk' : k0 = k'
        · simp [hk']
        · simp [hk', ih]

theorem mem_keys_setA {β : Type} (l : List (String × β)) (k : String) (v : β)
    (x : String) (h : x ∈ (setA l k v).map Prod.fst) :
    x ∈ l.map Prod.fst ∨ x = k := by
  induction l with
  | nil => simp [setA] at h; simp [h]
  | cons hd tl ih =>
      obtain ⟨k0, v0⟩ := hd
      by_cases hk : k0 = k
      · simp [setA, hk] at h
        rcases h with h | h
        · right; exact h
        · left; simp [h]
      · simp only [setA, hk, if_false, List.map_cons, List.mem_cons] at h
        rcases h with h | h
        · left; simp [h]
        · rcases ih h with h' | h'
          · left; simp [h']
          · right; exact h'

theorem lookupA_mem_keys {β : Type} (l : List (String × β)) (k : String) (v : β)
    (h : lookupA l k = some v) : k ∈ l.map Prod.fst := by
  induction l with
  | nil => simp [lookupA] at h
  | cons hd tl ih =>
      obtain ⟨k0, v0⟩ := hd
      by_cases hk : k0 = k
      · simp [hk]
      · simp only [lookupA, hk, if_false] at h
        simp [ih h]

theorem setA_setA_same {β : Type} (l : List (String × β)) (k : String) (v : β) :
    setA (setA l k v) k v = setA l k v := by
  induction l with
  | nil => simp [setA]
  | cons hd tl ih =>
      obtain ⟨k0, v0⟩ := hd
      by_cases hk : k0 = k
      · simp [setA, hk]
      · simp [setA, hk, ih]

/-! ## C9: permission-error suppression policy -/

theorem permRun_permission_count (ps : List String) :
    ∀ c : ErrorCounts, (permRun c ps).1.permission = c.permission + ps.length := by
  induction ps with
  | nil => intro c; simp [permRun]
  | cons p ps ih =>
      intro c
      simp only [permRun, handlePermissionError, ih, List.length_cons]
      omega

/-- Unfolding of one `handlePermissionError` call with the post-increment
counter value made explicit. -/
theorem handlePermissionError_eq (c : ErrorCounts) (p : String) :
    handlePermissionError c p =
      ({ c with permission := c.permission + 1 },
        if c.permission + 1 ≤ 3 then
          PermReport.individual ("Permission denied: " ++ p ++
            " - Check file permissions and ensure read access")
        else if c.permission + 1 = 4 then PermReport.suppressNotice
        else PermReport.silent) := rfl

theorem permRun_report_class (ps : List String) :
    ∀ (c : ErrorCounts) (i : Nat) (rep : PermReport),
      (permRun c ps).2.get? i = some rep →
      (c.permission + i + 1 ≤ 3 → ∃ m, rep = PermReport.individual m) ∧
      (c.permission + i + 1 = 4 → rep = PermReport.suppressNotice) ∧
      (5 ≤ c.permission + i + 1 → rep = PermReport.silent) := by
  induction ps with
  | nil => intro c i rep h; simp [permRun] at h
  | cons p ps ih =>
      intro c i rep h
      cases i with
      | zero =>
          simp only [permRun, handlePermissionError_eq, List.get?] at h
          injection h with h
          subst h
          refine ⟨fun h3 => ?_, fun h4 => ?_, fun h5 => ?_⟩
          · rw [if_pos (by omega)]; exact ⟨_, rfl⟩
          · rw [if_neg (by omega), if_pos (by omega)]
          · rw [if_neg (by omega), if_neg (by omega)]
      | succ j =>
          simp only [permRun, List.get?] at h
          have hrec := ih (handlePermissionError c p).1 j rep h
          have hperm : (handlePermissionError c p).1.permission = c.permission + 1 := rfl
          rw [hperm] at hrec
          exact ⟨fun hx => hrec.1 (by omega), fun hx => hrec.2.1 (by omega),
            fun hx => hrec.2.2 (by omega)⟩

/-- C9: in one ErrorHandler session, every permission-error classification
increments the permission counter; the first three occurrences are each
reported individually, exactly the fourth emits the single suppression
notice, and every later occurrence is counted silently. -/
theorem permission_suppression_policy (paths : List String) (i : Nat) (rep : PermReport)
    (h : (permSession paths).2.get? i = some rep) :
    (permSession paths).1.permission = paths.length ∧
    (∀ (c : ErrorCounts) (p : String),
      (handlePermissionError c p).1.permission = c.permission + 1) ∧
    (i + 1 ≤ 3 → ∃ m, rep = PermReport.individual m) ∧
    (i + 1 = 4 → rep = PermReport.suppressNotice) ∧
    (5 ≤ i + 1 → rep = PermReport.silent) := by
  have hcnt := permRun_permission_count paths ({} : ErrorCounts)
  have hcls := permRun_report_class paths ({} : ErrorCounts) i rep h
  have hzero : ({} : ErrorCounts).permission = 0 := rfl
  rw [hzero] at hcnt hcls
  exact ⟨by simpa [permSession] using hcnt, fun c p => rfl,
    by simpa using hcls.1, by simpa using hcls.2.1, by simpa using hcls.2.2⟩

/-- Witness for C9 on a five-error session: the counter reaches 5, the third
report is individual, the fourth is the suppression notice, the fifth is
silent. -/
theorem permission_suppression_policy_witness :
    (permSession ["a", "b", "c", "d", "e"]).1.permission = 5 ∧
    (permSession ["a", "b", "c", "d", "e"]).2.get? 3 = some PermReport.suppressNotice ∧
    (permSession ["a", "b", "c", "d", "e"]).2.get? 4 = some PermReport.silent := by
  have h4 : (permSession ["a", "b", "c", "d", "e"]).2.get? 3 =
      some PermReport.suppressNotice := by decide
  exact ⟨(permission_suppression_policy ["a", "b", "c", "d", "e"] 3
    PermReport.suppressNotice h4).1, h4, by decide⟩

/-! ## C10: string-fallback replacement is first-occurrence only -/

theorem indexOfSub_first_occurrence (m b : List Char) :
    ∀ a : List Char, (∀ i, i < a.length → isSubAt m (a ++ m ++ b) i = false) →
      indexOfSub m (a ++ m ++ b) = some a.length := by
  intro a
  induction a with
  | nil =>
      intro _
      have hpre : m.isPrefixOf (m ++ b) = true :=
        List.isPrefixOf_iff_prefix.mpr (List.prefix_append m b)
      rw [indexOfSub.eq_def]
      simp [hpre]
  | cons x a' ih =>
      intro hno
      have h0 : isSubAt m ((x :: a') ++ m ++ b) 0 = false := hno 0 (by simp)
      have hpre : m.isPrefixOf ((x :: a') ++ m ++ b) = false := by
        simpa [isSubAt] using h0
      have hrest : indexOfSub m (a' ++ m ++ b) = some a'.length := by
        apply ih
        intro i hi
        have := hno (i + 1) (by simpa using Nat.succ_lt_succ hi)
        simpa [isSubAt] using this
      rw [indexOfSub.eq_def]
      simp only [List.cons_append, List.append_assoc] at hpre hrest ⊢
      rw [if_neg (by simp [hpre])]
      simp [hrest]

theorem replaceFirst_at_first_occurrence (a m b r : List Char)
    (hno : ∀ i, i < a.length → isSubAt m (a ++ m ++ b) i = false) :
    replaceFirst m r (a ++ m ++ b) = a ++ r ++ b := by
  rw [replaceFirst, indexOfSub_first_occurrence m b a hno]
  have htake : (a ++ m ++ b).take a.length = a := by
    rw [List.append_assoc, List.take_left]
  have hdrop : (a ++ m ++ b).drop (a.length + m.length) = b := by
    rw [← List.length_append, List.drop_left]
  dsimp only
  rw [htake, hdrop]

/-- C10: when a finding carries no pattern (or one that fails to compile at
fix time), `applyPatternReplacement` falls back to plain string replacement,
which replaces only the first occurrence of `matchedText` — occurrences
after it survive verbatim; global-substitution semantics hold only when the
finding carries a compilable pattern. -/
theorem applyPatternReplacement_fallback_first_only :
    (∀ (content : List Char) (f : Finding), f.pattern = none ∨ f.pattern = some RPat.bad →
      applyPatternReplacement content f =
        replaceFirst f.matchedText (f.replacement.getD "null".data) content) ∧
    (∀ a m b r : List Char, (∀ i, i < a.length → isSubAt m (a ++ m ++ b) i = false) →
      replaceFirst m r (a ++ m ++ b) = a ++ r ++ b) ∧
    (∀ (content : List Char) (f : Finding) (toks : List RTok),
      f.pattern = some (RPat.ok toks) →
      applyPatternReplacement content f =
        globalReplace toks (f.replacement.getD "null".data) content) := by
  refine ⟨fun content f h => ?_, replaceFirst_at_first_occurrence, fun content f toks h => ?_⟩
  · rcases h with h | h <;> simp [applyPatternReplacement, h]
  · simp [applyPatternReplacement, h]

/-- Witness for C10: a pattern-less finding for `var` over
`"var x; var y;"` rewrites only the first `var`; the same finding with the
compiled pattern rewrites both. -/
theorem applyPatternReplacement_fallback_first_only_witness :
    applyPatternReplacement "var x; var y;".data
      { ruleId := "r", ruleName := "r", description := "", filePath := "f",
        lineNumber := 1, columnNumber := 1, matchedText := "var".data,
        severity := Severity.warning, fixable := true,
        replacement := some "const".data, pattern := none } = "const x; var y;".data ∧
    applyPatternReplacement "var x; var y;".data
      { ruleId := "r", ruleName := "r", description := "", filePath := "f",
        lineNumber := 1, columnNumber := 1, matchedText := "var".data,
        severity := Severity.warning, fixable := true,
        replacement := some "const".data,
        pattern := some (RPat.ok [RTok.lit 'v', RTok.lit 'a', RTok.lit 'r']) } =
      "const x; const y;".data := by
  constructor
  · have h1 := applyPatternReplacement_fallback_first_only.1 "var x; var y;".data
      { ruleId := "r", ruleName := "r", description := "", filePath := "f",
        lineNumber := 1, columnNumber := 1, matchedText := "var".data,
        severity := Severity.warning, fixable := true,
        replacement := some "const".data, pattern := none } (Or.inl rfl)
    have h2 := applyPatternReplacement_fallback_first_only.2.1 []
      "var".data " x; var y;".data "const".data (fun i hi => by simp at hi)
    rw [h1]
    exact h2
  · have h3 := applyPatternReplacement_fallback_first_only.2.2 "var x; var y;".data
      { ruleId := "r", ruleName := "r", description := "", filePath := "f",
        lineNumber := 1, columnNumber := 1, matchedText := "var".data,
        severity := Severity.warning, fixable := true,
        replacement := some "const".data,
        pattern := some (RPat.ok [RTok.lit 'v', RTok.lit 'a', RTok.lit 'r']) }
      [RTok.lit 'v', RTok.lit 'a', RTok.lit 'r'] rfl
    rw [h3]
    decide

/-! ## C6: the 10,000-match cap aborts a rule's scan non-fatally -/

/-- Each `applyRules` loop iteration only appends to the accumulated
findings and errors. -/
theorem applyRulesStep_shift (compiled : List (String × List RTok)) (content : List Char)
    (fp ext : String) (acc : List Finding × List (String × String)) (rule : Rule) :
    applyRulesStep compiled content fp ext acc rule =
      (acc.1 ++ (applyRulesStep compiled content fp ext ([], []) rule).1,
        acc.2 ++ (applyRulesStep compiled content fp ext ([], []) rule).2) := by
  unfold applyRulesStep
  cases ha : rule.fileTypes.contains ext with
  | false => simp only [ha, Bool.not_false, if_true, List.append_nil]
  | true =>
      simp only [ha, Bool.not_true, Bool.false_eq_true, if_false]
      split
      · simp
      · split <;> simp

theorem foldl_applyRulesStep_shift (compiled : List (String × List RTok))
    (content : List Char) (fp ext : String) (rs : List Rule) :
    ∀ acc : List Finding × List (String × String),
      rs.foldl (applyRulesStep compiled content fp ext) acc =
        (acc.1 ++ (rs.foldl (applyRulesStep compiled content fp ext) ([], [])).1,
          acc.2 ++ (rs.foldl (applyRulesStep compiled content fp ext) ([], [])).2) := by
  induction rs with
  | nil => intro acc; simp
  | cons r rs ih =>
      intro acc
      rw [List.foldl_cons, List.foldl_cons, ih (applyRulesStep compiled content fp ext acc r),
        ih (applyRulesStep compiled content fp ext ([], []) r),
        applyRulesStep_shift compiled content fp ext acc r]
      simp

/-- C6: when a rule's pattern yields more than 10,000 matches on a file, the
scan of that rule is aborted with the (non-fatal) too-many-matches error,
its findings are discarded, and `applyRules` records the error and continues
with the remaining rules, whose findings are still produced. -/
theorem match_cap_aborts_rule_scan (toks : List RTok) (content : List Char) (rule : Rule)
    (fp ext : String) (rest : List Rule) (compiled : List (String × List RTok))
    (hcap : 10000 < (execAll toks content).length)
    (happ : rule.fileTypes.contains ext = true)
    (hcomp : lookupA compiled rule.id = some toks) :
    applyRuleWithTimeout toks content rule fp = .error tooManyMatchesMsg ∧
    applyRules ⟨rule :: rest, compiled⟩ content fp ext =
      ((applyRules ⟨rest, compiled⟩ content fp ext).1,
        (rule.id, tooManyMatchesMsg) :: (applyRules ⟨rest, compiled⟩ content fp ext).2) := by
  have herr : applyRuleWithTimeout toks content rule fp = .error tooManyMatchesMsg := by
    unfold applyRuleWithTimeout
    rw [if_pos hcap]
  refine ⟨herr, ?_⟩
  show (rule :: rest).foldl (applyRulesStep compiled content fp ext) ([], []) = _
  rw [List.foldl_cons]
  have hstep : applyRulesStep compiled content fp ext ([], []) rule =
      ([], [(rule.id, tooManyMatchesMsg)]) := by
    unfold applyRulesStep
    rw [happ]
    simp only [Bool.not_true, Bool.false_eq_true, if_false]
    rw [hcomp]
    dsimp only
    rw [herr]
    rfl
  rw [hstep, foldl_applyRulesStep_shift]
  simp [applyRules]

/-! Witness development for C6: the literal pattern `a` on a file of 10,001
`a` characters yields 10,001 matches, one per offset. -/

theorem matchSeq_litA (n i : Nat) :
    matchSeq [RTok.lit 'a'] (List.replicate n 'a') i =
      if i < n then some (i + 1) else none := by
  simp only [matchSeq, tokCandidates, List.get?_eq_getElem?, List.getElem?_replicate]
  by_cases h : i < n
  · simp [h, List.findSome?]
  · simp [h, List.findSome?]

theorem findMatchFrom_litA_hit (n : Nat) (fuel i : Nat) (hi : i < n) (hf : 0 < fuel) :
    findMatchFrom [RTok.lit 'a'] (List.replicate n 'a') fuel i = some (i, i + 1) := by
  cases fuel with
  | zero => omega
  | succ f =>
      unfold findMatchFrom
      rw [if_neg (by simp [List.length_replicate]; omega)]
      rw [matchSeq_litA n i, if_pos hi]

theorem findMatchFrom_litA_miss (n : Nat) :
    ∀ fuel i, n ≤ i → findMatchFrom [RTok.lit 'a'] (List.replicate n 'a') fuel i = none := by
  intro fuel
  induction fuel with
  | zero => intro i _; rfl
  | succ f ih =>
      intro i hi
      unfold findMatchFrom
      by_cases hgt : i > (List.replicate n 'a').length
      · rw [if_pos hgt]
      · rw [if_neg hgt]
        rw [matchSeq_litA n i, if_neg (by omega)]
        exact ih (i + 1) (by omega)

theorem execAllAux_litA (n : Nat) :
    ∀ fuel li, li ≤ n → n + 2 - li ≤ fuel →
      (execAllAux [RTok.lit 'a'] (List.replicate n 'a') fuel li).length = n - li := by
  intro fuel
  induction fuel with
  | zero => intro li h1 h2; omega
  | succ f ih =>
      intro li h1 h2
      unfold execAllAux
      rw [if_neg (by simp [List.length_replicate]; omega)]
      by_cases hlt : li < n
      · rw [List.length_replicate,
          findMatchFrom_litA_hit n (n + 1 - li) li hlt (by omega)]
        have hne : ¬ (li + 1 = li) := by omega
        dsimp only
        rw [if_neg hne]
        rw [List.length_cons, ih (li + 1) (by omega) (by omega)]
        omega
      · have hle : n ≤ li := by omega
        rw [List.length_replicate, findMatchFrom_litA_miss n (n + 1 - li) li hle]
        simp
        omega

theorem execAll_litA (n : Nat) :
    (execAll [RTok.lit 'a'] (List.replicate n 'a')).length = n := by
  unfold execAll
  rw [List.length_replicate]
  simpa using execAllAux_litA n (n + 2) 0 (by omega) (by omega)

/-- The runaway-pattern rule used in the C6 witness. -/
def capRule : Rule :=
  { id := "c6", name := "c6", description := "", pattern := RPat.ok [RTok.lit 'a'],
    fileTypes := ["js"], severity := Severity.warning, replacement := none }

/-- Witness for C6: a single-rule engine whose pattern `a` scans a file of
10,001 `a`s — the rule's scan errors out with the too-many-matches message,
no findings are produced, and the (empty) remainder of the rule list is
still processed. -/
theorem match_cap_aborts_rule_scan_witness :
    applyRuleWithTimeout [RTok.lit 'a'] (List.replicate 10001 'a') capRule "big.js" =
      .error tooManyMatchesMsg ∧
    applyRules ⟨[capRule], [("c6", [RTok.lit 'a'])]⟩
        (List.replicate 10001 'a') "big.js" "js" =
      ([], [("c6", tooManyMatchesMsg)]) := by
  have h := match_cap_aborts_rule_scan [RTok.lit 'a'] (List.replicate 10001 'a')
    capRule "big.js" "js" [] [("c6", [RTok.lit 'a'])]
    (by rw [execAll_litA]; omega) (by decide) (by decide)
  exact ⟨h.1, by rw [h.2]; rfl⟩

/-! ## C7: line and column numbers of findings -/

theorem splitNl_ne_nil (l : List Char) : splitNl l ≠ [] := by
  cases l with
  | nil => simp [splitNl]
  | cons c rest =>
      by_cases h : c = '\n'
      · simp [splitNl, h]
      · simp only [splitNl, h, if_false]
        cases splitNl rest <;> simp

theorem splitNl_length (l : List Char) :
    (splitNl l).length = 1 + l.count '\n' := by
  induction l with
  | nil => simp [splitNl]
  | cons c rest ih =>
      by_cases h : c = '\n'
      · subst h
        have hsp : splitNl ('\n' :: rest) = [] :: splitNl rest := by simp [splitNl]
        rw [hsp, List.length_cons, ih, List.count_cons_self]
        omega
      · simp only [splitNl, h, if_false]
        have hne := splitNl_ne_nil rest
        cases hsp : splitNl rest with
        | nil => exact absurd hsp hne
        | cons p ps =>
            rw [List.count_cons_of_ne (fun hh => h hh.symm)]
            have hih : (splitNl rest).length = 1 + rest.count '\n' := ih
            rw [hsp] at hih
            simpa using hih

/-- `lineNumberOf` computes 1 + the number of newlines before the match. -/
theorem lineNumberOf_eq (before : List Char) :
    lineNumberOf before = 1 + before.count '\n' :=
  splitNl_length before

/-- Characterization of JS `lastIndexOf`: it is `-1` when the character is
absent, and otherwise the greatest offset holding the character. -/
theorem jsLastIndexOf_spec (c : Char) (l : List Char) :
    (jsLastIndexOf c l = -1 ∧ ∀ j, l.get? j ≠ some c) ∨
    (∃ k : Nat, jsLastIndexOf c l = (k : Int) ∧ l.get? k = some c ∧
      ∀ j, k < j → l.get? j ≠ some c) := by
  induction l with
  | nil => left; exact ⟨rfl, fun j => by simp⟩
  | cons x rest ih =>
      rcases ih with ⟨hneg, habs⟩ | ⟨k, hk, hget, hafter⟩
      · by_cases hx : x = c
        · right
          refine ⟨0, ?_, by simp [hx], fun j hj => ?_⟩
          · simp only [jsLastIndexOf, hneg, hx]
            norm_num
          · cases j with
            | zero => omega
            | succ j' => simpa using habs j'
        · left
          refine ⟨?_, fun j => ?_⟩
          · simp only [jsLastIndexOf, hneg, hx]
            norm_num
          · cases j with
            | zero => simpa using hx
            | succ j' => simpa using habs j'
      · right
        refine ⟨k + 1, ?_, by simpa using hget, fun j hj => ?_⟩
        · simp only [jsLastIndexOf, hk]
          rw [if_pos (by omega)]
          push_cast
          ring
        · cases j with
          | zero => omega
          | succ j' => simpa using hafter j' (by omega)

theorem jsLastIndexOf_of_last (c : Char) (l : List Char) (k : Nat)
    (hget : l.get? k = some c) (hafter : ∀ j, k < j → l.get? j ≠ some c) :
    jsLastIndexOf c l = (k : Int) := by
  rcases jsLastIndexOf_spec c l with ⟨_, habs⟩ | ⟨k', hk', hget', hafter'⟩
  · exact absurd hget (habs k)
  · have : k = k' := by
      by_contra hne
      rcases Nat.lt_or_ge k k' with hlt | hge
      · exact hafter k' hlt hget'
      · exact hafter' k (by omega) hget
    rw [this, hk']

theorem jsLastIndexOf_of_none (c : Char) (l : List Char)
    (h : ∀ j, l.get? j ≠ some c) : jsLastIndexOf c l = -1 := by
  rcases jsLastIndexOf_spec c l with ⟨hneg, _⟩ | ⟨k, _, hget, _⟩
  · exact hneg
  · exact absurd hget (h k)

/-- Every match offset delivered by `findMatchFrom` lies within the subject
and at or after the scan start. -/
theorem findMatchFrom_bounds (toks : List RTok) (cs : List Char) :
    ∀ fuel i s e, findMatchFrom toks cs fuel i = some (s, e) →
      s ≤ cs.length ∧ i ≤ s := by
  intro fuel
  induction fuel with
  | zero => intro i s e h; simp [findMatchFrom] at h
  | succ f ih =>
      intro i s e h
      unfold findMatchFrom at h
      by_cases hgt : i > cs.length
      · rw [if_pos hgt] at h; simp at h
      · rw [if_neg hgt] at h
        cases hm : matchSeq toks cs i with
        | some e' =>
            rw [hm] at h
            simp only [Option.some.injEq, Prod.mk.injEq] at h
            obtain ⟨h1, _⟩ := h
            subst h1
            exact ⟨by omega, le_refl _⟩
        | none =>
            rw [hm] at h
            have hb := ih (i + 1) s e h
            exact ⟨hb.1, by omega⟩

theorem execAllAux_start_le (toks : List RTok) (cs : List Char) :
    ∀ fuel li s e, (s, e) ∈ execAllAux toks cs fuel li → s ≤ cs.length := by
  intro fuel
  induction fuel with
  | zero => intro li s e h; simp [execAllAux] at h
  | succ f ih =>
      intro li s e h
      unfold execAllAux at h
      by_cases hgt : li > cs.length
      · rw [if_pos hgt] at h; simp at h
      · rw [if_neg hgt] at h
        cases hm : findMatchFrom toks cs (cs.length + 1 - li) li with
        | none => rw [hm] at h; simp at h
        | some se =>
            obtain ⟨s', e'⟩ := se
            rw [hm] at h
            rcases List.mem_cons.mp h with heq | hmem
            · obtain ⟨h1, _⟩ := Prod.mk.injEq .. |>.mp heq
              subst h1
              exact (findMatchFrom_bounds toks cs _ li s e' hm).1
            · exact ih _ s e hmem

theorem execAll_start_le (toks : List RTok) (cs : List Char) (s e : Nat)
    (h : (s, e) ∈ execAll toks cs) : s ≤ cs.length :=
  execAllAux_start_le toks cs _ 0 s e h

/-- C7: every finding produced by a scan carries `lineNumber` equal to 1 plus
the number of newline characters before its match offset, and `columnNumber`
equal to the match offset minus the offset of the last newline before it
(the offset plus 1 when no newline precedes the match). -/
theorem finding_positions_correct (toks : List RTok) (content : List Char) (rule : Rule)
    (fp : String) (fs : List Finding) (i : Nat) (f : Finding)
    (hok : applyRuleWithTimeout toks content rule fp = .ok fs)
    (hf : fs.get? i = some f) :
    ∃ s e, (execAll toks content).get? i = some (s, e) ∧ s ≤ content.length ∧
      f.lineNumber = 1 + (content.take s).count '\n' ∧
      (∀ k, k < s → content.get? k = some '\n' →
        (∀ j, k < j → j < s → content.get? j ≠ some '\n') → f.columnNumber = s - k) ∧
      ((∀ j, j < s → content.get? j ≠ some '\n') → f.columnNumber = s + 1) := by
  unfold applyRuleWithTimeout at hok
  by_cases hcap : (execAll toks content).length > 10000
  · rw [if_pos hcap] at hok; exact absurd hok (by simp)
  · rw [if_neg hcap] at hok
    injection hok with hok
    subst hok
    rw [List.get?_eq_getElem?, List.getElem?_map] at hf
    cases hm : (execAll toks content)[i]? with
    | none => rw [hm] at hf; simp at hf
    | some se =>
        obtain ⟨s, e⟩ := se
        rw [hm] at hf
        have hf : mkFinding rule fp content (s, e) = f := by simpa using hf
        have hmem : (s, e) ∈ execAll toks content :=
          List.getElem?_mem hm
        have hsle : s ≤ content.length := execAll_start_le toks content s e hmem
        have hlen : (content.take s).length = s := by
          rw [List.length_take]
          omega
        refine ⟨s, e, by rw [List.get?_eq_getElem?, hm], hsle, ?_, ?_, ?_⟩
        · rw [← hf]
          simpa [mkFinding] using lineNumberOf_eq (content.take s)
        · intro k hk hnl hlast
          have hgetk : (content.take s).get? k = some '\n' := by
            rw [List.get?_eq_getElem?, List.getElem?_take_of_lt hk,
              ← List.get?_eq_getElem?]
            exact hnl
          have hafterk : ∀ j, k < j → (content.take s).get? j ≠ some '\n' := by
            intro j hj
            by_cases hjs : j < s
            · rw [List.get?_eq_getElem?, List.getElem?_take_of_lt hjs,
                ← List.get?_eq_getElem?]
              exact hlast j hj hjs
            · rw [List.get?_eq_getElem?, List.getElem?_take, if_neg hjs]
              simp
          have hli := jsLastIndexOf_of_last '\n' (content.take s) k hgetk hafterk
          rw [← hf]
          show columnNumberOf (content.take s) = s - k
          rw [columnNumberOf, hli, hlen]
          have hks : k < s := hk
          omega
        · intro hnone
          have hli := jsLastIndexOf_of_none '\n' (content.take s) (by
            intro j
            by_cases hjs : j < s
            · rw [List.get?_eq_getElem?, List.getElem?_take_of_lt hjs,
                ← List.get?_eq_getElem?]
              exact hnone j hjs
            · rw [List.get?_eq_getElem?, List.getElem?_take, if_neg hjs]
              simp)
          rw [← hf]
          show columnNumberOf (content.take s) = s + 1
          rw [columnNumberOf, hli, hlen]
          omega

/-- The rule and scenario of the spec's position-correctness property. -/
def posRule : Rule :=
  { id := "c7", name := "var decl", description := "", fileTypes := ["js"],
    pattern := RPat.ok [RTok.wordB, RTok.lit 'v', RTok.lit 'a', RTok.lit 'r',
      RTok.plusCls CharCls.spaceC, RTok.plusCls CharCls.wordC],
    severity := Severity.warning, replacement := none }

def posToks : List RTok :=
  [RTok.wordB, RTok.lit 'v', RTok.lit 'a', RTok.lit 'r',
    RTok.plusCls CharCls.spaceC, RTok.plusCls CharCls.wordC]

/-- Witness for C7: on `"a\nb\nvar x=1;"` with pattern `\bvar\s+\w+`, the
single finding matches `var x` at offset 4 and reports line 3, column 1. -/
theorem finding_positions_correct_witness :
    (applyRuleWithTimeout posToks "a\nb\nvar x=1;".data posRule "t.js").map
      (List.map (fun f => (f.lineNumber, f.columnNumber, f.matchedText))) =
      .ok [(3, 1, "var x".data)] ∧
    (3 : Nat) = 1 + ("a\nb\nvar x=1;".data.take 4).count '\n' := by
  constructor
  · decide
  · have hok : applyRuleWithTimeout posToks "a\nb\nvar x=1;".data posRule "t.js" =
        .ok [mkFinding posRule "t.js" "a\nb\nvar x=1;".data (4, 9)] := by decide
    obtain ⟨s, e, hse, _, hline, _, _⟩ :=
      finding_positions_correct posToks "a\nb\nvar x=1;".data posRule "t.js"
        [mkFinding posRule "t.js" "a\nb\nvar x=1;".data (4, 9)] 0
        (mkFinding posRule "t.js" "a\nb\nvar x=1;".data (4, 9)) hok rfl
    have hs4 : s = 4 := by
      have : (execAll posToks "a\nb\nvar x=1;".data).get? 0 = some (4, 9) := by decide
      rw [this] at hse
      injection hse with hse
      injection hse with h1 _
      exact h1.symm
    subst hs4
    have hl : (mkFinding posRule "t.js" "a\nb\nvar x=1;".data (4, 9)).lineNumber = 3 := by
      decide
    rw [hl] at hline
    exact hline

/-! ## C2: substitutions apply in descending position order, not rule order -/

theorem keyGe_total (a b : Finding) : keyGe a b = true ∨ keyGe b a = true := by
  unfold keyGe
  rcases Nat.lt_trichotomy a.lineNumber b.lineNumber with h | h | h
  · right; simp [h]
  · rcases Nat.le_total a.columnNumber b.columnNumber with hc | hc
    · right; simp [h, hc]
    · left; simp [h, hc]
  · left; simp [h]

theorem keyGe_trans (a b c : Finding) (hab : keyGe a b = true) (hbc : keyGe b c = true) :
    keyGe a c = true := by
  unfold keyGe at hab hbc ⊢
  simp only [Bool.or_eq_true, Bool.and_eq_true, decide_eq_true_eq] at hab hbc ⊢
  omega

theorem insertByPos_perm (f : Finding) (l : List Finding) :
    List.Perm (insertByPos f l) (f :: l) := by
  induction l with
  | nil => simp [insertByPos]
  | cons g gs ih =>
      unfold insertByPos
      by_cases h : keyGe g f
      · rw [if_pos h]
        exact (ih.cons g).trans (List.Perm.swap f g gs)
      · rw [if_neg h]

theorem insertByPos_pairwise (f : Finding) (l : List Finding)
    (hl : l.Pairwise (fun a b => keyGe a b = true)) :
    (insertByPos f l).Pairwise (fun a b => keyGe a b = true) := by
  induction l with
  | nil => simp [insertByPos]
  | cons g gs ih =>
      cases hl with
      | cons hg htl =>
          unfold insertByPos
          by_cases h : keyGe g f = true
          · rw [if_pos h]
            refine List.Pairwise.cons ?_ (ih htl)
            intro x hx
            have hx' : x ∈ f :: gs := (insertByPos_perm f gs).mem_iff.mp hx
            rcases List.mem_cons.mp hx' with rfl | hxg
            · exact h
            · exact hg x hxg
          · rw [if_neg h]
            have hfg : keyGe f g = true := (keyGe_total f g).resolve_right h
            refine List.Pairwise.cons ?_ (List.Pairwise.cons hg htl)
            intro x hx
            rcases List.mem_cons.mp hx with rfl | hxg
            · exact hfg
            · exact keyGe_trans f g x hfg (hg x hxg)

theorem sortFindings_loop_perm (l : List Finding) :
    ∀ acc : List Finding,
      List.Perm (l.foldl (fun acc f => insertByPos f acc) acc) (acc ++ l) := by
  induction l with
  | nil => intro acc; simp
  | cons f fs ih =>
      intro acc
      rw [List.foldl_cons]
      refine (ih (insertByPos f acc)).trans ?_
      refine ((insertByPos_perm f acc).append_right fs).trans ?_
      simpa using List.perm_middle.symm

theorem sortFindings_loop_pairwise (l : List Finding) :
    ∀ acc : List Finding, acc.Pairwise (fun a b => keyGe a b = true) →
      (l.foldl (fun acc f => insertByPos f acc) acc).Pairwise
        (fun a b => keyGe a b = true) := by
  induction l with
  | nil => intro acc h; simpa using h
  | cons f fs ih =>
      intro acc h
      rw [List.foldl_cons]
      exact ih (insertByPos f acc) (insertByPos_pairwise f acc h)

theorem sortFindings_pairwise (l : List Finding) :
    (sortFindings l).Pairwise (fun a b => keyGe a b = true) :=
  sortFindings_loop_pairwise l [] (by simp)

theorem sortFindings_perm (l : List Finding) : List.Perm (sortFindings l) l := by
  simpa using sortFindings_loop_perm l []

/-- The two overlapping rules of the C2 counterexample: `ab → b` loaded
before `b → c`. -/
def ruleAB : Rule :=
  { id := "r1", name := "ab to b", description := "", fileTypes := ["js"],
    pattern := RPat.ok [RTok.lit 'a', RTok.lit 'b'],
    severity := Severity.info, replacement := some "b".data }

def ruleB : Rule :=
  { id := "r2", name := "b to c", description := "", fileTypes := ["js"],
    pattern := RPat.ok [RTok.lit 'b'],
    severity := Severity.info, replacement := some "c".data }

def pipelineEngine : RuleEngineState :=
  ⟨[ruleAB, ruleB], [("r1", [RTok.lit 'a', RTok.lit 'b']), ("r2", [RTok.lit 'b'])]⟩

/-- The findings the engine produces for content `ab` — in rule-load order. -/
def pipelineFindings : List Finding :=
  (applyRules pipelineEngine "ab".data "f.js" "js").1

/-- Modelled from the spec: "when multiple rules target overlapping text in
the same file, rules are applied in the order they appear in the loaded rule
set; because each rule's substitution is a full global pass over the
*current* (possibly already-modified) content, a later rule sees the text
already changed by an earlier rule" — i.e. the per-file fix loop folding the
substitutions in finding (rule-load) order. -/
def fixFileRuleOrder (content : List Char) (findings : List Finding) : List Char × Nat :=
  findings.foldl fixStep (content, 0)

/-- Counterexample to C2: for content `ab` the engine emits the findings in
rule-load order (`r1` before `r2`), but `fixFile` applies `r2`'s
substitution first (its match position sorts higher), producing `ac` with
one replacement, while the spec's rule-load order would produce `c` with
two. -/
theorem fix_rule_order_counterexample :
    pipelineFindings.map Finding.ruleId = ["r1", "r2"] ∧
    fixFilePure "ab".data pipelineFindings = ("ac".data, 1) ∧
    fixFileRuleOrder "ab".data pipelineFindings = ("c".data, 2) ∧
    ("ac".data : List Char) ≠ "c".data := by decide

/-- C2 (amended): within one file the Fix Engine applies the findings'
substitutions in stable descending (line, column) position order — a
permutation of the file's findings, but not rule-load order — each
substitution being a full global pass over the current (possibly
already-modified) content, so a substitution applied later sees text already
changed by an earlier one. -/
theorem fix_applies_in_descending_position_order (content : List Char)
    (findings : List Finding) :
    (sortFindings findings).Pairwise (fun a b => keyGe a b = true) ∧
    List.Perm (sortFindings findings) findings ∧
    fixFilePure content findings = (sortFindings findings).foldl fixStep (content, 0) ∧
    (∀ (c : List Char) (f : Finding) (toks : List RTok),
      f.pattern = some (RPat.ok toks) →
      applyPatternReplacement c f = globalReplace toks (f.replacement.getD "null".data) c) :=
  ⟨sortFindings_pairwise findings, sortFindings_perm findings, rfl,
    fun c f toks h => by simp [applyPatternReplacement, h]⟩

/-- Witness for the amended C2 on the concrete two-rule scenario. -/
theorem fix_applies_in_descending_position_order_witness :
    (sortFindings pipelineFindings).Pairwise (fun a b => keyGe a b = true) ∧
    List.Perm (sortFindings pipelineFindings) pipelineFindings ∧
    fixFilePure "ab".data pipelineFindings =
      (sortFindings pipelineFindings).foldl fixStep ("ab".data, 0) :=
  ⟨(fix_applies_in_descending_position_order "ab".data pipelineFindings).1,
    (fix_applies_in_descending_position_order "ab".data pipelineFindings).2.1,
    (fix_applies_in_descending_position_order "ab".data pipelineFindings).2.2.1⟩

/-! ## C1: the dry-run `\bvar\b → const` scenario -/

/-- The single rule of the scenario: `\bvar\b → const`. -/
def varRule : Rule :=
  { id := "no-var", name := "No var", description := "use const", fileTypes := ["js"],
    pattern := RPat.ok [RTok.wordB, RTok.lit 'v', RTok.lit 'a', RTok.lit 'r', RTok.wordB],
    severity := Severity.warning, replacement := some "const".data }

def varEngine : RuleEngineState :=
  ⟨[varRule],
    [("no-var", [RTok.wordB, RTok.lit 'v', RTok.lit 'a', RTok.lit 'r', RTok.wordB])]⟩

def varContent : List Char := "var x = 1;\nvar y = 2;".data

/-- The scenario's findings as the engine produces them. -/
def varFindings : List Finding :=
  (applyRules varEngine varContent "test.js" "js").1

/-- The filesystem/session state before the dry run. -/
def varState : FixerState :=
  { fs := [("test.js", FileV.writable varContent)], backupRegistry := [],
    backupFiles := [], fixedFiles := [], clock := 0 }

/-- The result of the dry-run `applyFixes` over the scenario. -/
def varDryRun : FixerState × Except String FixResults :=
  applyFixes { dryRun := true } {} varState varFindings

/-- The `FixResults` value the dry run actually returns. -/
def varDryRes : FixResults :=
  { filesProcessed := 1, filesFixed := 1, patternsReplaced := 1,
    errors := [], backupsCreated := [], fixedFiles := ["test.js"] }

/-- Counterexample to C1: the scenario yields two findings (one per line),
but the dry-run `applyFixes` reports `patternsReplaced = 1`, not `2` — the
first applied finding's global substitution already replaces both `var`
occurrences, so the second finding's pass changes nothing and is not
counted. -/
theorem dry_run_scenario_counterexample :
    varFindings.map (fun f => (f.lineNumber, f.columnNumber)) = [(1, 1), (2, 1)] ∧
    varDryRun.2 = .ok varDryRes ∧
    varDryRes.patternsReplaced = 1 ∧
    varDryRes.patternsReplaced ≠ 2 := by decide

/-- C1 (amended): the dry-run scenario produces `patternsReplaced = 1` (the
first finding's global substitution consumes both matches), leaves the file
content on disk unchanged, and creates no backup artifact and no registry
entry. -/
theorem dry_run_scenario_amended :
    varFindings.length = 2 ∧
    varDryRun.2 = .ok varDryRes ∧
    varDryRun.1.fs = varState.fs ∧
    varDryRun.1.backupFiles = [] ∧
    varDryRun.1.backupRegistry = [] := by decide

/-! ## C3: rule loading — field-validation failures are fatal -/

/-- A raw rule passing every validation check, with a compilable pattern. -/
def goodRaw : RawRule :=
  { id := FieldV.ok "r1", name := FieldV.ok "Rule 1", description := some "d",
    pattern := FieldV.ok (RPat.ok [RTok.lit 'a']), fileTypes := FieldV.ok ["js"],
    severity := FieldV.ok Severity.warning, replacement := ReplV.strV "b".data }

/-- The same rule with the required `name` field missing. -/
def badRaw : RawRule := { goodRaw with name := FieldV.missing }

/-- A rule passing field validation whose pattern fails to compile. -/
def badPatternRaw : RawRule :=
  { goodRaw with id := FieldV.ok "r9", pattern := FieldV.ok RPat.bad }

/-- Counterexample to C3: a rules document whose top-level `rules` array is
present and well-formed, containing one valid rule followed by one rule with
a missing required field, makes `loadRules` raise a fatal error instead of
keeping the valid subset and reporting a per-rule non-fatal error. -/
theorem loadRules_validation_fatal_counterexample :
    loadRules true (RulesConfig.withRules [goodRaw, badRaw]) =
      .error "Rule validation failed: missing required field \"name\"" := by
  rfl

/-- If every rule before `r` validates and `r` fails field validation, the
loading loop propagates `r`'s validation error fatally, from any
accumulated state. -/
theorem loadRulesAux_error_of_invalid (r : RawRule) (rs2 : List RawRule) (e : String)
    (herr : validateRule r = .error e) :
    ∀ rs1 : List RawRule, (∀ r' ∈ rs1, ∃ v, validateRule r' = .ok v) →
      ∀ acc : LoadedRules, loadRulesAux true (rs1 ++ r :: rs2) acc = .error e := by
  intro rs1
  induction rs1 with
  | nil =>
      intro _ acc
      rw [List.nil_append]
      unfold loadRulesAux
      rw [herr]
  | cons r' rs1' ih =>
      intro hok acc
      obtain ⟨v, hv⟩ := hok r' (by simp)
      rw [List.cons_append]
      unfold loadRulesAux
      rw [hv]
      dsimp only
      cases hp : v.pattern with
      | ok toks => exact ih (fun x hx => hok x (by simp [hx])) _
      | bad =>
          simp only [if_true]
          exact ih (fun x hx => hok x (by simp [hx])) _

/-- C3 (amended): `loadRules` raises a fatal error when the top-level rule
list is missing/not a list AND when any individual rule fails field
validation (the first failing rule's error propagates); only a pattern that
fails to compile is non-fatal — with an error handler configured the rule is
reported, kept in the loaded `rules` list but excluded from the compiled
set, and loading continues — while `applyRules` skips any rule without a
compiled pattern. -/
theorem loadRules_error_policy :
    (∀ h : Bool, loadRules h RulesConfig.malformed =
      .error "Invalid rules file: missing or invalid \"rules\" array") ∧
    (∀ (rs1 : List RawRule) (r : RawRule) (rs2 : List RawRule) (e : String),
      (∀ r' ∈ rs1, ∃ v, validateRule r' = .ok v) → validateRule r = .error e →
      loadRules true (RulesConfig.withRules (rs1 ++ r :: rs2)) = .error e) ∧
    (∀ (r : RawRule) (vr : Rule) (rest : List RawRule) (acc : LoadedRules),
      validateRule r = .ok vr → vr.pattern = RPat.bad →
      loadRulesAux true (r :: rest) acc =
        loadRulesAux true rest
          { acc with
              rules := acc.rules ++ [vr],
              regexErrors := acc.regexErrors ++ [(vr.id, invalidRegexMsg)] }) ∧
    (∀ (rule : Rule) (rest : List Rule) (compiled : List (String × List RTok))
        (content : List Char) (fp ext : String),
      lookupA compiled rule.id = none →
      applyRules ⟨rule :: rest, compiled⟩ content fp ext =
        applyRules ⟨rest, compiled⟩ content fp ext) := by
  refine ⟨fun h => rfl, ?_, ?_, ?_⟩
  · intro rs1 r rs2 e hok herr
    exact loadRulesAux_error_of_invalid r rs2 e herr rs1 hok ⟨[], [], []⟩
  · intro r vr rest acc hval hbad
    conv_lhs => rw [loadRulesAux.eq_def]
    dsimp only
    rw [hval]
    dsimp only
    rw [hbad]
    dsimp only
    rw [if_pos rfl]
  · intro rule rest compiled content fp ext hnone
    show (rule :: rest).foldl (applyRulesStep compiled content fp ext) ([], []) = _
    rw [List.foldl_cons]
    have hstep : applyRulesStep compiled content fp ext ([], []) rule = ([], []) := by
      unfold applyRulesStep
      cases ha : rule.fileTypes.contains ext with
      | false => simp [ha]
      | true =>
          simp only [ha, Bool.not_true, Bool.false_eq_true, if_false]
          rw [hnone]
    rw [hstep]
    rfl

/-- The `Rule` values `validateRule` yields for the C3 witness rules. -/
def goodRule : Rule :=
  { id := "r1", name := "Rule 1", description := "d",
    pattern := RPat.ok [RTok.lit 'a'], fileTypes := ["js"],
    severity := Severity.warning, replacement := some "b".data }

def badPatternRule : Rule :=
  { id := "r9", name := "Rule 1", description := "d", pattern := RPat.bad,
    fileTypes := ["js"], severity := Severity.warning, replacement := some "b".data }

/-- Witness for the amended C3: a malformed document is fatal; a
field-invalid rule after a valid one is fatal; a compile-failing rule is
processed non-fatally (kept in `rules`, reported, not compiled); an
uncompiled rule contributes nothing to a scan. -/
theorem loadRules_error_policy_witness :
    loadRules true RulesConfig.malformed =
      .error "Invalid rules file: missing or invalid \"rules\" array" ∧
    loadRules true (RulesConfig.withRules [goodRaw, badRaw]) =
      .error "Rule validation failed: missing required field \"name\"" ∧
    loadRulesAux true [badPatternRaw] ⟨[], [], []⟩ =
      loadRulesAux true [] ⟨[badPatternRule], [], [("r9", invalidRegexMsg)]⟩ ∧
    applyRules ⟨[badPatternRule], []⟩ "a".data "f.js" "js" =
      applyRules ⟨[], []⟩ "a".data "f.js" "js" := by
  refine ⟨loadRules_error_policy.1 true, ?_, ?_, ?_⟩
  · exact loadRules_error_policy.2.1 [goodRaw] badRaw []
      "Rule validation failed: missing required field \"name\""
      (by
        intro r' hr'
        have : r' = goodRaw := by simpa using hr'
        subst this
        exact ⟨goodRule, by decide⟩)
      (by decide)
  · have h3 := loadRules_error_policy.2.2.1 badPatternRaw badPatternRule []
      ⟨[], [], []⟩ (by decide) rfl
    simpa using h3
  · exact loadRules_error_policy.2.2.2 badPatternRule [] [] "a".data "f.js" "js" rfl

/-! ## C4: createBackup is not idempotent with timestamped names -/

theorem timeStr_length (n : Nat) : (timeStr n).length = n := by
  show (List.replicate n 'T').length = n
  exact List.length_replicate ..

/-- Full-path length of a timestamped backup name. -/
theorem backupPath_length (opts : FixerOptions) (p : String) (t : Nat)
    (h : opts.createTimestampedBackups = true) :
    (opts.backupDir ++ "/" ++ backupNameFor opts p t).length =
      opts.backupDir.length + p.length + t + 9 := by
  have h1 : ("/" : String).length = 1 := rfl
  have h2 : ("." : String).length = 1 := rfl
  have h3 : (".backup" : String).length = 7 := rfl
  simp only [backupNameFor, h, if_true, String.length_append, h1, h2, h3, timeStr_length]
  omega

theorem backupPath_ne (opts : FixerOptions) (p : String) (t1 t2 : Nat)
    (h : opts.createTimestampedBackups = true) (hne : t1 ≠ t2) :
    opts.backupDir ++ "/" ++ backupNameFor opts p t1 ≠
      opts.backupDir ++ "/" ++ backupNameFor opts p t2 := by
  intro heq
  have hlen := congrArg String.length heq
  rw [backupPath_length opts p t1 h, backupPath_length opts p t2 h] at hlen
  omega

/-- One-step characterization of `createBackup` on a readable file. -/
theorem createBackup_eq (opts : FixerOptions) (st : FixerState) (p : String)
    (c : List Char) (hread : (lookupA st.fs p).bind FileV.readContent = some c) :
    createBackup opts st p =
      ({ st with
          clock := st.clock + 1
          backupFiles :=
            if (lookupA st.backupFiles
                (opts.backupDir ++ "/" ++ backupNameFor opts p st.clock)).isSome then
              st.backupFiles
            else st.backupFiles ++
              [(opts.backupDir ++ "/" ++ backupNameFor opts p st.clock, c)]
          backupRegistry := setA st.backupRegistry p
            (opts.backupDir ++ "/" ++ backupNameFor opts p st.clock) },
        .ok (opts.backupDir ++ "/" ++ backupNameFor opts p st.clock)) := by
  unfold createBackup
  rw [hread]

/-- The state and content of the C4 counterexample: one readable file,
fresh session. -/
def c4State : FixerState :=
  { fs := [("a.js", FileV.writable "x".data)], backupRegistry := [],
    backupFiles := [], fixedFiles := [], clock := 0 }

/-- Counterexample to C4: with the default timestamped backup names, calling
`createBackup` twice for the same path in one session copies again — it
creates a second backup artifact under a new name and repoints the registry
at the newer backup, so the first backup does not win and two artifacts
exist for one file. -/
theorem createBackup_second_call_counterexample :
    (createBackup {} c4State "a.js").2 = .ok ".code-migration-backups/a.js..backup" ∧
    (createBackup {} (createBackup {} c4State "a.js").1 "a.js").2 =
      .ok ".code-migration-backups/a.js.T.backup" ∧
    (".code-migration-backups/a.js.T.backup" : String) ≠
      ".code-migration-backups/a.js..backup" ∧
    (createBackup {} (createBackup {} c4State "a.js").1 "a.js").1.backupFiles =
      [(".code-migration-backups/a.js..backup", "x".data),
        (".code-migration-backups/a.js.T.backup", "x".data)] ∧
    lookupA (createBackup {} (createBackup {} c4State "a.js").1 "a.js").1.backupRegistry
      "a.js" = some ".code-migration-backups/a.js.T.backup" := by
  exact ⟨by decide, by decide, by decide, by decide, by decide⟩

/-- C4 (amended): `createBackup` never consults the registry before copying.
With timestamped names (the default) a second call for the same path in the
same session produces a different backup path, adds a second artifact, and
repoints the registry at the newer backup (last backup wins); only with
`createTimestampedBackups = false` is the second call a no-op copy
(`overwrite: false` skips it) that returns the same location again. -/
theorem createBackup_second_call (opts : FixerOptions) (st : FixerState) (p : String)
    (c : List Char) (hread : (lookupA st.fs p).bind FileV.readContent = some c)
    (hfresh : st.backupFiles = []) :
    (opts.createTimestampedBackups = true →
      (createBackup opts (createBackup opts st p).1 p).2 ≠ (createBackup opts st p).2 ∧
      (createBackup opts (createBackup opts st p).1 p).1.backupFiles =
        [(opts.backupDir ++ "/" ++ backupNameFor opts p st.clock, c),
          (opts.backupDir ++ "/" ++ backupNameFor opts p (st.clock + 1), c)] ∧
      lookupA (createBackup opts (createBackup opts st p).1 p).1.backupRegistry p =
        some (opts.backupDir ++ "/" ++ backupNameFor opts p (st.clock + 1))) ∧
    (opts.createTimestampedBackups = false →
      (createBackup opts (createBackup opts st p).1 p).2 = (createBackup opts st p).2 ∧
      (createBackup opts (createBackup opts st p).1 p).1.backupFiles =
        (createBackup opts st p).1.backupFiles ∧
      (createBackup opts (createBackup opts st p).1 p).1.backupRegistry =
        (createBackup opts st p).1.backupRegistry) := by
  have h1 : createBackup opts st p =
      (⟨st.fs,
        setA st.backupRegistry p (opts.backupDir ++ "/" ++ backupNameFor opts p st.clock),
        [(opts.backupDir ++ "/" ++ backupNameFor opts p st.clock, c)], st.fixedFiles,
        st.clock + 1⟩,
        .ok (opts.backupDir ++ "/" ++ backupNameFor opts p st.clock)) := by
    rw [createBackup_eq opts st p c hread, hfresh]
    rfl
  have h2 := createBackup_eq opts
    ⟨st.fs,
      setA st.backupRegistry p (opts.backupDir ++ "/" ++ backupNameFor opts p st.clock),
      [(opts.backupDir ++ "/" ++ backupNameFor opts p st.clock, c)], st.fixedFiles,
      st.clock + 1⟩ p c hread
  rw [h1]
  dsimp only
  rw [h2]
  dsimp only
  constructor
  · intro hts
    have hne : opts.backupDir ++ "/" ++ backupNameFor opts p st.clock ≠
        opts.backupDir ++ "/" ++ backupNameFor opts p (st.clock + 1) :=
      backupPath_ne opts p st.clock (st.clock + 1) hts (by omega)
    have hlk2 : lookupA
        [(opts.backupDir ++ "/" ++ backupNameFor opts p st.clock, c)]
        (opts.backupDir ++ "/" ++ backupNameFor opts p (st.clock + 1)) = none := by
      simp [lookupA, hne]
    rw [hlk2]
    simp only [Option.isSome_none, Bool.false_eq_true, if_false]
    refine ⟨?_, rfl, lookupA_setA_eq ..⟩
    intro h
    exact hne (Except.ok.inj h).symm
  · intro hts
    have hname : backupNameFor opts p (st.clock + 1) = backupNameFor opts p st.clock := by
      simp [backupNameFor, hts]
    rw [hname]
    have hlk2 : (lookupA
        [(opts.backupDir ++ "/" ++ backupNameFor opts p st.clock, c)]
        (opts.backupDir ++ "/" ++ backupNameFor opts p st.clock)).isSome = true := by
      simp [lookupA]
    rw [if_pos hlk2]
    exact ⟨rfl, rfl, setA_setA_same ..⟩

/-- Witness for the amended C4 on the concrete one-file session. -/
theorem createBackup_second_call_witness :
    (createBackup {} (createBackup {} c4State "a.js").1 "a.js").2 ≠
      (createBackup {} c4State "a.js").2 ∧
    (createBackup {} (createBackup {} c4State "a.js").1 "a.js").1.backupFiles =
      [(".code-migration-backups/a.js..backup", "x".data),
        (".code-migration-backups/a.js.T.backup", "x".data)] ∧
    lookupA (createBackup {} (createBackup {} c4State "a.js").1 "a.js").1.backupRegistry
      "a.js" = some ".code-migration-backups/a.js.T.backup" := by
  have h := (createBackup_second_call {} c4State "a.js" "x".data (by decide) rfl).1 rfl
  refine ⟨h.1, ?_, ?_⟩
  · rw [h.2.1]
    decide
  · rw [h.2.2]
    decide

/-! ## C8: detection-only rules never cause a file modification -/

theorem addToGroups_keys (f : Finding) (x : String) :
    ∀ gs : List (String × List Finding), x ∈ (addToGroups gs f).map Prod.fst →
      x ∈ gs.map Prod.fst ∨ x = f.filePath := by
  intro gs
  induction gs with
  | nil =>
      intro h
      right
      simpa [addToGroups] using h
  | cons hd tl ih =>
      obtain ⟨p, l⟩ := hd
      intro h
      by_cases hp : p = f.filePath
      · simp only [addToGroups, hp, if_true, List.map_cons, List.mem_cons] at h
        rcases h with h | h
        · right; simp [h, hp]
        · left; simp [h]
      · simp only [addToGroups, hp, if_false, List.map_cons, List.mem_cons] at h
        rcases h with h | h
        · left; simp [h]
        · rcases ih h with h' | h'
          · left; simp [h']
          · right; exact h'

theorem groupFindingsByFile_keys_aux (findings : List Finding) :
    ∀ (gs : List (String × List Finding)) (x : String),
      x ∈ (findings.foldl addToGroups gs).map Prod.fst →
      x ∈ gs.map Prod.fst ∨ ∃ f ∈ findings, f.filePath = x := by
  induction findings with
  | nil => intro gs x h; left; simpa using h
  | cons f fs ih =>
      intro gs x h
      rw [List.foldl_cons] at h
      rcases ih (addToGroups gs f) x h with h' | h'
      · rcases addToGroups_keys f x gs h' with h'' | h''
        · left; exact h''
        · right; exact ⟨f, by simp, h''.symm⟩
      · obtain ⟨g, hg, hgx⟩ := h'
        right
        exact ⟨g, by simp [hg], hgx⟩

theorem groupFindingsByFile_keys (findings : List Finding) (x : String)
    (h : x ∈ (groupFindingsByFile findings).map Prod.fst) :
    ∃ f ∈ findings, f.filePath = x := by
  rcases groupFindingsByFile_keys_aux findings [] x h with h' | h'
  · simp at h'
  · exact h'

/-- `createBackup` never touches the filesystem contents. -/
theorem createBackup_fs (opts : FixerOptions) (st : FixerState) (p : String) :
    (createBackup opts st p).1.fs = st.fs := by
  unfold createBackup
  split <;> rfl

/-- `createBackup` adds at most the backed-up path to the registry keys. -/
theorem createBackup_registry_keys (opts : FixerOptions) (st : FixerState) (p : String)
    (x : String) (h : x ∈ (createBackup opts st p).1.backupRegistry.map Prod.fst) :
    x ∈ st.backupRegistry.map Prod.fst ∨ x = p := by
  unfold createBackup at h
  split at h
  · left; exact h
  · exact mem_keys_setA _ _ _ _ h

/-- `fixFile` writes only to its own file. -/
theorem fixFile_fs_other (opts : FixerOptions) (st : FixerState) (p : String)
    (fl : List Finding) (q : String) (hq : q ≠ p) :
    lookupA (fixFile opts st p fl).1.fs q = lookupA st.fs q := by
  unfold fixFile
  split
  · rfl
  · split
    · dsimp only
      split
      · exact lookupA_setA_ne st.fs p _ q hq
      · rfl
    · dsimp only
      split <;> rfl

/-- `fixFile` never touches the backup registry. -/
theorem fixFile_registry (opts : FixerOptions) (st : FixerState) (p : String)
    (fl : List Finding) : (fixFile opts st p fl).1.backupRegistry = st.backupRegistry := by
  unfold fixFile
  split
  · rfl
  · split
    · dsimp only
      split <;> rfl
    · dsimp only
      split <;> rfl

/-- Processing one file leaves every other file's contents untouched and
adds at most that file's path to the registry keys. -/
theorem processOneFile_preserve (fopts : FixerOptions) (aopts : ApplyOptions)
    (st : FixerState) (acc : FixResults) (q : String) (fl : List Finding) (p : String)
    (hqp : q ≠ p) :
    lookupA (processOneFile fopts aopts st acc q fl).1.fs p = lookupA st.fs p ∧
    (∀ x, x ∈ (processOneFile fopts aopts st acc q fl).1.backupRegistry.map Prod.fst →
      x ∈ st.backupRegistry.map Prod.fst ∨ x = q) := by
  unfold processOneFile
  by_cases hb : (aopts.backupBeforeFix && !fopts.dryRun) = true
  · rw [if_pos hb]
    rcases hcb : createBackup fopts st q with ⟨st1, rb⟩
    have hfs1 : st1.fs = st.fs := by
      have := createBackup_fs fopts st q
      rw [hcb] at this
      exact this
    have hreg1 : ∀ x, x ∈ st1.backupRegistry.map Prod.fst →
        x ∈ st.backupRegistry.map Prod.fst ∨ x = q := by
      intro x hx
      have := createBackup_registry_keys fopts st q x
      rw [hcb] at this
      exact this hx
    cases rb with
    | error e =>
        dsimp only
        exact ⟨by rw [hfs1], hreg1⟩
    | ok bp =>
        dsimp only
        rcases hff : fixFile fopts st1 q fl with ⟨st2, rf⟩
        have hfs2 : lookupA st2.fs p = lookupA st1.fs p := by
          have := fixFile_fs_other fopts st1 q fl p (fun h => hqp h.symm)
          rw [hff] at this
          exact this
        have hreg2 : st2.backupRegistry = st1.backupRegistry := by
          have := fixFile_registry fopts st1 q fl
          rw [hff] at this
          exact this
        cases rf with
        | error e =>
            dsimp only
            exact ⟨by rw [hfs2, hfs1], by rw [hreg2]; exact hreg1⟩
        | ok n =>
            dsimp only
            split
            · exact ⟨by rw [hfs2, hfs1], by rw [hreg2]; exact hreg1⟩
            · exact ⟨by rw [hfs2, hfs1], by rw [hreg2]; exact hreg1⟩
  · rw [if_neg hb]
    rcases hff : fixFile fopts st q fl with ⟨st2, rf⟩
    have hfs2 : lookupA st2.fs p = lookupA st.fs p := by
      have := fixFile_fs_other fopts st q fl p (fun h => hqp h.symm)
      rw [hff] at this
      exact this
    have hreg2 : st2.backupRegistry = st.backupRegistry := by
      have := fixFile_registry fopts st q fl
      rw [hff] at this
      exact this
    cases rf with
    | error e =>
        dsimp only
        exact ⟨hfs2, fun x hx => by rw [hreg2] at hx; exact Or.inl hx⟩
    | ok n =>
        dsimp only
        split
        · exact ⟨hfs2, fun x hx => by rw [hreg2] at hx; exact Or.inl hx⟩
        · exact ⟨hfs2, fun x hx => by rw [hreg2] at hx; exact Or.inl hx⟩

/-- The per-file loop preserves the contents of every file not in its group
list, and never adds such a file's path to the registry. -/
theorem processFiles_preserve (fopts : FixerOptions) (aopts : ApplyOptions) (p : String) :
    ∀ (groups : List (String × List Finding)) (st : FixerState) (acc : FixResults),
      (∀ q ∈ groups.map Prod.fst, q ≠ p) →
      (∀ x ∈ st.backupRegistry.map Prod.fst, x ≠ p) →
      lookupA (processFiles fopts aopts st acc groups).1.fs p = lookupA st.fs p ∧
      (∀ x ∈ (processFiles fopts aopts st acc groups).1.backupRegistry.map Prod.fst,
        x ≠ p) := by
  intro groups
  induction groups with
  | nil =>
      intro st acc _ hreg
      exact ⟨rfl, hreg⟩
  | cons g gs ih =>
      intro st acc hg hreg
      obtain ⟨q, fl⟩ := g
      have hqp : q ≠ p := hg q (by simp)
      have hpre := processOneFile_preserve fopts aopts st acc q fl p hqp
      unfold processFiles
      rcases hpo : processOneFile fopts aopts st acc q fl with ⟨st', acc', err⟩
      rw [hpo] at hpre
      have hreg' : ∀ x ∈ st'.backupRegistry.map Prod.fst, x ≠ p := by
        intro x hx
        rcases hpre.2 x hx with h | h
        · exact hreg x h
        · rw [h]; exact hqp
      have hgs : ∀ q' ∈ gs.map Prod.fst, q' ≠ p := fun q' hq' => hg q' (by simp [hq'])
      cases err with
      | none =>
          dsimp only
          have hrec := ih st' acc' hgs hreg'
          exact ⟨hrec.1.trans hpre.1, hrec.2⟩
      | some e =>
          dsimp only
          by_cases hcont : aopts.continueOnError = true
          · rw [if_pos hcont]
            have hrec := ih st' acc' hgs hreg'
            exact ⟨hrec.1.trans hpre.1, hrec.2⟩
          · rw [if_neg hcont]
            exact ⟨hpre.1, hreg'⟩

/-- `restoreOne` touches only the restored path's file entry. -/
theorem restoreOne_other (st : FixerState) (q p : String) (hqp : q ≠ p) :
    lookupA (restoreOne st q).1.fs p = lookupA st.fs p := by
  unfold restoreOne
  split
  · rfl
  · split
    · rfl
    · split
      · rfl
      · rfl
      · exact lookupA_setA_ne st.fs q _ p (fun h => hqp h.symm)

theorem restoreFromBackup_preserve (paths : List String) :
    ∀ (st : FixerState) (p : String), (∀ q ∈ paths, q ≠ p) →
      lookupA (restoreFromBackup st paths).1.fs p = lookupA st.fs p := by
  induction paths with
  | nil => intro st p _; rfl
  | cons q qs ih =>
      intro st p hq
      have hqp : q ≠ p := hq q (by simp)
      have hqs : ∀ q' ∈ qs, q' ≠ p := fun q' h => hq q' (by simp [h])
      have hone := restoreOne_other st q p hqp
      unfold restoreFromBackup
      rcases hro : restoreOne st q with ⟨st', ok, err⟩
      rw [hro] at hone
      cases ok with
      | true =>
          dsimp only
          exact (ih st' p hqs).trans hone
      | false =>
          cases err with
          | none =>
              dsimp only
              exact (ih st' p hqs).trans hone
          | some e =>
              dsimp only
              exact (ih st' p hqs).trans hone

/-- Rolling back touches only registered paths. -/
theorem rollbackChanges_preserve (st : FixerState) (p : String)
    (h : ∀ x ∈ st.backupRegistry.map Prod.fst, x ≠ p) :
    lookupA (rollbackChanges st).1.fs p = lookupA st.fs p := by
  unfold rollbackChanges
  dsimp only
  exact restoreFromBackup_preserve (st.backupRegistry.map (·.1)) st p h

/-- C8: a validated rule with `replacement == null` only ever produces
findings with `fixable == false`; and a file whose findings are all
non-fixable is filtered out before any backup or write — `applyFixes` never
modifies it, on any outcome of the call (fresh session). -/
theorem nonfixable_rules_never_modify :
    (∀ (rule : Rule) (toks : List RTok) (content : List Char) (fp : String)
        (fs : List Finding), rule.replacement = none →
      applyRuleWithTimeout toks content rule fp = .ok fs →
      ∀ f ∈ fs, f.fixable = false) ∧
    (∀ (findings : List Finding) (p : String),
      (∀ f ∈ findings, f.filePath = p → f.fixable = false) →
      (findings.filter (fun f => f.fixable && f.replacement.isSome)).all
        (fun f => f.filePath ≠ p) = true) ∧
    (∀ (fopts : FixerOptions) (aopts : ApplyOptions) (st : FixerState)
        (findings : List Finding) (p : String),
      st.backupRegistry = [] →
      (∀ f ∈ findings, f.filePath = p → f.fixable = false) →
      lookupA (applyFixes fopts aopts st findings).1.fs p = lookupA st.fs p) := by
  refine ⟨?_, ?_, ?_⟩
  · intro rule toks content fp fs hrepl hok f hf
    unfold applyRuleWithTimeout at hok
    dsimp only at hok
    split at hok
    · exact absurd hok (by simp)
    · injection hok with hok
      subst hok
      obtain ⟨m, _, hm⟩ := List.mem_map.mp hf
      rw [← hm]
      simp [mkFinding, hrepl]
  · intro findings p hnf
    rw [List.all_eq_true]
    intro f hf
    have hmem := List.mem_filter.mp hf
    have hfix : f.fixable = true := by
      have := hmem.2
      simp only [Bool.and_eq_true] at this
      exact this.1
    simp only [ne_eq, decide_eq_true_eq]
    intro hfp
    rw [hnf f hmem.1 hfp] at hfix
    exact Bool.false_ne_true hfix
  · intro fopts aopts st findings p hfresh hnf
    unfold applyFixes
    dsimp only
    split
    · rfl
    · have hkeys : ∀ q ∈ (groupFindingsByFile
          (findings.filter (fun f => f.fixable && f.replacement.isSome))).map Prod.fst,
          q ≠ p := by
        intro q hq
        obtain ⟨f, hf, hfp⟩ := groupFindingsByFile_keys _ q hq
        have hmem := List.mem_filter.mp hf
        have hfix : f.fixable = true := by
          have := hmem.2
          simp only [Bool.and_eq_true] at this
          exact this.1
        intro hqp
        rw [hnf f hmem.1 (by rw [hfp, hqp])] at hfix
        exact Bool.false_ne_true hfix
      have hreg : ∀ x ∈ st.backupRegistry.map Prod.fst, x ≠ p := by
        rw [hfresh]
        intro x hx
        simp at hx
      have hpres := processFiles_preserve fopts aopts p
        (groupFindingsByFile (findings.filter (fun f => f.fixable && f.replacement.isSome)))
        st {} hkeys hreg
      rcases hpf : processFiles fopts aopts st {}
          (groupFindingsByFile
            (findings.filter (fun f => f.fixable && f.replacement.isSome))) with ⟨st', r⟩
      rw [hpf] at hpres
      cases r with
      | ok res =>
          dsimp only
          exact hpres.1
      | error er =>
          obtain ⟨e, accRes⟩ := er
          dsimp only
          split
          · exact hpres.1
          · exact (rollbackChanges_preserve st' p hpres.2).trans hpres.1

/-- Witness for C8: a detection-only rule's finding (fixable = false) and a
one-file state where `applyFixes` on a non-fixable finding leaves the file
untouched. -/
theorem nonfixable_rules_never_modify_witness :
    (∀ f ∈ [mkFinding posRule "t.js" "a\nb\nvar x=1;".data (4, 9)], f.fixable = false) ∧
    lookupA (applyFixes {} {}
        { fs := [("t.js", FileV.writable "a\nb\nvar x=1;".data)], backupRegistry := [],
          backupFiles := [], fixedFiles := [], clock := 0 }
        [mkFinding posRule "t.js" "a\nb\nvar x=1;".data (4, 9)]).1.fs "t.js" =
      some (FileV.writable "a\nb\nvar x=1;".data) := by
  constructor
  · exact nonfixable_rules_never_modify.1 posRule posToks "a\nb\nvar x=1;".data "t.js"
      [mkFinding posRule "t.js" "a\nb\nvar x=1;".data (4, 9)] rfl (by decide)
  · have h := nonfixable_rules_never_modify.2.2 {} {}
      { fs := [("t.js", FileV.writable "a\nb\nvar x=1;".data)], backupRegistry := [],
        backupFiles := [], fixedFiles := [], clock := 0 }
      [mkFinding posRule "t.js" "a\nb\nvar x=1;".data (4, 9)] "t.js" rfl
      (fun f hf _ => by
        have : f = mkFinding posRule "t.js" "a\nb\nvar x=1;".data (4, 9) := by
          simpa using hf
        rw [this]
        decide)
    rw [h]
    decide

/-! ## C5: continueOnError semantics and rollback on abort -/

/-- A failed per-file step records exactly one error entry for that file. -/
theorem processOneFile_error_recorded (fopts : FixerOptions) (aopts : ApplyOptions)
    (st : FixerState) (acc : FixResults) (q : String) (fl : List Finding)
    (st' : FixerState) (acc' : FixResults) (e : String)
    (h : processOneFile fopts aopts st acc q fl = (st', acc', some e)) :
    acc'.errors = acc.errors ++ [(q, e)] := by
  unfold processOneFile at h
  by_cases hb : (aopts.backupBeforeFix && !fopts.dryRun) = true
  · rw [if_pos hb] at h
    rcases hcb : createBackup fopts st q with ⟨st1, rb⟩
    rw [hcb] at h
    cases rb with
    | error e1 =>
        dsimp only at h
        simp only [Prod.mk.injEq, Option.some.injEq] at h
        rw [← h.2.1, h.2.2]
    | ok bp =>
        dsimp only at h
        rcases hff : fixFile fopts st1 q fl with ⟨st2, rf⟩
        rw [hff] at h
        cases rf with
        | error e1 =>
            dsimp only at h
            simp only [Prod.mk.injEq, Option.some.injEq] at h
            rw [← h.2.1, h.2.2]
        | ok n =>
            dsimp only at h
            split at h <;> simp at h
  · rw [if_neg hb] at h
    rcases hff : fixFile fopts st q fl with ⟨st2, rf⟩
    rw [hff] at h
    cases rf with
    | error e1 =>
        dsimp only at h
        simp only [Prod.mk.injEq, Option.some.injEq] at h
        rw [← h.2.1, h.2.2]
    | ok n =>
        dsimp only at h
        split at h <;> simp at h

/-- With `continueOnError = false` the loop aborts at the first failing file,
wrapping and rethrowing its error without touching the remaining files. -/
theorem processFiles_abort_on_error (fopts : FixerOptions) (aopts : ApplyOptions)
    (st : FixerState) (acc : FixResults) (q : String) (fl : List Finding)
    (rest : List (String × List Finding)) (st' : FixerState) (acc' : FixResults)
    (e : String) (hfalse : aopts.continueOnError = false)
    (h : processOneFile fopts aopts st acc q fl = (st', acc', some e)) :
    processFiles fopts aopts st acc ((q, fl) :: rest) =
      (st', .error ("Fix operation failed for " ++ q ++ ": " ++ e, acc')) := by
  unfold processFiles
  rw [h]
  dsimp only
  rw [if_neg (by simp [hfalse])]

/-- With `continueOnError = true` the loop records the failure and continues
with the remaining files from the post-error state. -/
theorem processFiles_continue_on_error (fopts : FixerOptions) (aopts : ApplyOptions)
    (st : FixerState) (acc : FixResults) (q : String) (fl : List Finding)
    (rest : List (String × List Finding)) (st' : FixerState) (acc' : FixResults)
    (e : String) (htrue : aopts.continueOnError = true)
    (h : processOneFile fopts aopts st acc q fl = (st', acc', some e)) :
    processFiles fopts aopts st acc ((q, fl) :: rest) =
      processFiles fopts aopts st' acc' rest := by
  conv_lhs => rw [processFiles.eq_def]
  dsimp only
  rw [h]
  dsimp only
  rw [if_pos htrue]

/-- When the loop throws and at least one backup was created in this call,
`applyFixes` rolls the session back before propagating the error. -/
theorem applyFixes_rollback_on_abort (fopts : FixerOptions) (aopts : ApplyOptions)
    (st : FixerState) (findings : List Finding) (st' : FixerState) (e : String)
    (accRes : FixResults)
    (hne : (findings.filter (fun f => f.fixable && f.replacement.isSome)).isEmpty = false)
    (hpf : processFiles fopts aopts st {}
      (groupFindingsByFile (findings.filter (fun f => f.fixable && f.replacement.isSome))) =
      (st', .error (e, accRes)))
    (hbk : accRes.backupsCreated.isEmpty = false) :
    applyFixes fopts aopts st findings = ((rollbackChanges st').1, .error e) := by
  unfold applyFixes
  dsimp only
  rw [if_neg (by simp [hne]), hpf]
  dsimp only
  rw [if_neg (by simp [hbk])]

/-- `restoreOne` on a registered path with an existing artifact and a
restorable destination copies the backup content over the original. -/
theorem restoreOne_restores (st : FixerState) (p bp : String) (c : List Char)
    (hreg : lookupA st.backupRegistry p = some bp)
    (hbf : lookupA st.backupFiles bp = some c)
    (hok : lookupA st.fs p = none ∨ ∃ cc, lookupA st.fs p = some (FileV.writable cc)) :
    restoreOne st p =
      ({ st with
          fs := setA st.fs p (FileV.writable c)
          fixedFiles := st.fixedFiles.filter (fun q => q ≠ p) }, true, none) := by
  unfold restoreOne
  rw [hreg]
  dsimp only
  rw [hbf]
  dsimp only
  rcases hok with h | ⟨cc, h⟩ <;> rw [h]

theorem restoreOne_registry (st : FixerState) (q : String) :
    (restoreOne st q).1.backupRegistry = st.backupRegistry ∧
    (restoreOne st q).1.backupFiles = st.backupFiles := by
  unfold restoreOne
  split
  · exact ⟨rfl, rfl⟩
  · split
    · exact ⟨rfl, rfl⟩
    · split <;> exact ⟨rfl, rfl⟩

theorem restoreFromBackup_restores (paths : List String) :
    ∀ (st : FixerState) (p bp : String) (c : List Char),
      lookupA st.backupRegistry p = some bp →
      lookupA st.backupFiles bp = some c →
      (lookupA st.fs p = none ∨ ∃ cc, lookupA st.fs p = some (FileV.writable cc)) →
      p ∈ paths →
      lookupA (restoreFromBackup st paths).1.fs p = some (FileV.writable c) := by
  induction paths with
  | nil => intro st p bp c _ _ _ hmem; simp at hmem
  | cons q qs ih =>
      intro st p bp c hreg hbf hok hmem
      by_cases hq : q = p
      · subst hq
        have hro := restoreOne_restores st q bp c hreg hbf hok
        unfold restoreFromBackup
        rw [hro]
        dsimp only
        by_cases hq2 : q ∈ qs
        · refine ih _ q bp c ?_ ?_ ?_ hq2
          · exact hreg
          · exact hbf
          · right
            exact ⟨c, lookupA_setA_eq ..⟩
        · rw [restoreFromBackup_preserve qs _ q
            (fun q' h he => hq2 (he ▸ h))]
          exact lookupA_setA_eq ..
      · have hmem' : p ∈ qs := by
          rcases List.mem_cons.mp hmem with h | h
          · exact absurd h.symm hq
          · exact h
        have hother := restoreOne_other st q p hq
        have hkeep := restoreOne_registry st q
        unfold restoreFromBackup
        rcases hro : restoreOne st q with ⟨st1, okb, err⟩
        rw [hro] at hother hkeep
        have hreg1 : lookupA st1.backupRegistry p = some bp := by rw [hkeep.1]; exact hreg
        have hbf1 : lookupA st1.backupFiles bp = some c := by rw [hkeep.2]; exact hbf
        have hok1 : lookupA st1.fs p = none ∨
            ∃ cc, lookupA st1.fs p = some (FileV.writable cc) := by
          rw [hother]
          exact hok
        cases okb with
        | true =>
            dsimp only
            exact ih st1 p bp c hreg1 hbf1 hok1 hmem'
        | false =>
            cases err with
            | none =>
                dsimp only
                exact ih st1 p bp c hreg1 hbf1 hok1 hmem'
            | some e =>
                dsimp only
                exact ih st1 p bp c hreg1 hbf1 hok1 hmem'

/-- `rollbackChanges` restores every registered path whose artifact exists
and whose destination is writable or missing, then clears the registry. -/
theorem rollbackChanges_restores (st : FixerState) (p bp : String) (c : List Char)
    (hreg : lookupA st.backupRegistry p = some bp)
    (hbf : lookupA st.backupFiles bp = some c)
    (hok : lookupA st.fs p = none ∨ ∃ cc, lookupA st.fs p = some (FileV.writable cc)) :
    lookupA (rollbackChanges st).1.fs p = some (FileV.writable c) ∧
    (rollbackChanges st).1.backupRegistry = [] := by
  unfold rollbackChanges
  dsimp only
  refine ⟨restoreFromBackup_restores _ st p bp c hreg hbf hok ?_, rfl⟩
  exact lookupA_mem_keys st.backupRegistry p bp hreg

/-- C5: with `continueOnError = false` the first per-file error aborts the
whole `applyFixes` call — the remaining files are never processed — and the
error is propagated to the caller after a best-effort rollback (invoked
whenever this call created backups) that restores every file registered for
backup whose artifact exists and whose destination is restorable; with
`continueOnError = true` the error is recorded in the result's errors list
and the loop continues with the remaining files. -/
theorem continueOnError_abort_and_rollback :
    (∀ (fopts : FixerOptions) (aopts : ApplyOptions) (st : FixerState) (acc : FixResults)
        (q : String) (fl : List Finding) (rest : List (String × List Finding))
        (st' : FixerState) (acc' : FixResults) (e : String),
      aopts.continueOnError = false →
      processOneFile fopts aopts st acc q fl = (st', acc', some e) →
      processFiles fopts aopts st acc ((q, fl) :: rest) =
        (st', .error ("Fix operation failed for " ++ q ++ ": " ++ e, acc')) ∧
      acc'.errors = acc.errors ++ [(q, e)]) ∧
    (∀ (fopts : FixerOptions) (aopts : ApplyOptions) (st : FixerState) (acc : FixResults)
        (q : String) (fl : List Finding) (rest : List (String × List Finding))
        (st' : FixerState) (acc' : FixResults) (e : String),
      aopts.continueOnError = true →
      processOneFile fopts aopts st acc q fl = (st', acc', some e) →
      processFiles fopts aopts st acc ((q, fl) :: rest) =
        processFiles fopts aopts st' acc' rest ∧
      acc'.errors = acc.errors ++ [(q, e)]) ∧
    (∀ (fopts : FixerOptions) (aopts : ApplyOptions) (st : FixerState)
        (findings : List Finding) (st' : FixerState) (e : String) (accRes : FixResults),
      (findings.filter (fun f => f.fixable && f.replacement.isSome)).isEmpty = false →
      processFiles fopts aopts st {}
        (groupFindingsByFile
          (findings.filter (fun f => f.fixable && f.replacement.isSome))) =
        (st', .error (e, accRes)) →
      accRes.backupsCreated.isEmpty = false →
      applyFixes fopts aopts st findings = ((rollbackChanges st').1, .error e)) ∧
    (∀ (st : FixerState) (p bp : String) (c : List Char),
      lookupA st.backupRegistry p = some bp →
      lookupA st.backupFiles bp = some c →
      (lookupA st.fs p = none ∨ ∃ cc, lookupA st.fs p = some (FileV.writable cc)) →
      lookupA (rollbackChanges st).1.fs p = some (FileV.writable c) ∧
      (rollbackChanges st).1.backupRegistry = []) :=
  ⟨fun fopts aopts st acc q fl rest st' acc' e hf h =>
      ⟨processFiles_abort_on_error fopts aopts st acc q fl rest st' acc' e hf h,
        processOneFile_error_recorded fopts aopts st acc q fl st' acc' e h⟩,
    fun fopts aopts st acc q fl rest st' acc' e ht h =>
      ⟨processFiles_continue_on_error fopts aopts st acc q fl rest st' acc' e ht h,
        processOneFile_error_recorded fopts aopts st acc q fl st' acc' e h⟩,
    applyFixes_rollback_on_abort,
    rollbackChanges_restores⟩

/-- The C5 witness scenario: one write-protected file with a fixable
finding — its backup succeeds but the write fails. -/
def c5finding : Finding :=
  { ruleId := "r", ruleName := "r", description := "", filePath := "f2", lineNumber := 1,
    columnNumber := 1, matchedText := "a".data, severity := Severity.info, fixable := true,
    replacement := some "X".data, pattern := some (RPat.ok [RTok.lit 'a']) }

def c5state : FixerState :=
  { fs := [("f2", FileV.readonly "ab".data)], backupRegistry := [], backupFiles := [],
    fixedFiles := [], clock := 0 }

/-- The state after the failed per-file step: backup created, write failed. -/
def c5after : FixerState :=
  { fs := [("f2", FileV.readonly "ab".data)],
    backupRegistry := [("f2", ".code-migration-backups/f2..backup")],
    backupFiles := [(".code-migration-backups/f2..backup", "ab".data)],
    fixedFiles := [], clock := 1 }

def c5accErr : FixResults :=
  { filesProcessed := 1, filesFixed := 0, patternsReplaced := 0,
    errors := [("f2", "Failed to fix file f2")],
    backupsCreated := [".code-migration-backups/f2..backup"], fixedFiles := [] }

/-- A mid-session state for the rollback conclusion: `f1` was modified to
`XX` after being backed up as `ab`. -/
def c5roll : FixerState :=
  { fs := [("f1", FileV.writable "XX".data)], backupRegistry := [("f1", "b1")],
    backupFiles := [("b1", "ab".data)], fixedFiles := ["f1"], clock := 1 }

/-- Witness for C5: the failing file aborts the loop with its wrapped error
and a recorded error entry under `continueOnError = false`, continues under
`true`, and rollback restores a backed-up file's original content while
clearing the registry. -/
theorem continueOnError_abort_and_rollback_witness :
    (processFiles {} { continueOnError := false } c5state {} [("f2", [c5finding])] =
      (c5after, .error ("Fix operation failed for f2: Failed to fix file f2", c5accErr)) ∧
      c5accErr.errors = ([] : List (String × String)) ++ [("f2", "Failed to fix file f2")]) ∧
    processFiles {} {} c5state {} [("f2", [c5finding])] =
      processFiles {} {} c5after c5accErr [] ∧
    lookupA (rollbackChanges c5roll).1.fs "f1" = some (FileV.writable "ab".data) ∧
    (rollbackChanges c5roll).1.backupRegistry = [] := by
  refine ⟨?_, ?_, ?_, ?_⟩
  · have h := continueOnError_abort_and_rollback.1 {} { continueOnError := false }
      c5state {} "f2" [c5finding] [] c5after c5accErr "Failed to fix file f2"
      rfl (by decide)
    exact ⟨h.1, by rw [h.2]⟩
  · exact (continueOnError_abort_and_rollback.2.1 {} {} c5state {} "f2" [c5finding] []
      c5after c5accErr "Failed to fix file f2" rfl (by decide)).1
  · exact (continueOnError_abort_and_rollback.2.2.2 c5roll "f1" "b1" "ab".data rfl rfl
      (Or.inr ⟨"XX".data, rfl⟩)).1
  · exact (continueOnError_abort_and_rollback.2.2.2 c5roll "f1" "b1" "ab".data rfl rfl
      (Or.inr ⟨"XX".data, rfl⟩)).2

end CodeMigration
